import Mathlib

/-!
Verification of the mcl-bbl-engine repository: a shallow embedding of its
queue/gate coordinator (`src/mbe.js`) and of its three pure utilities
(`src/utils/getString.js`, `src/utils/getCourses.js`,
`src/utils/getAssignments.js`), together with theorems settling the frozen
claims about the natural-language specification.
-/

namespace MBE

/-- A JavaScript value, as manipulated by the repository's code.  Numbers are
modelled as integers (no claim involves float arithmetic). -/
inductive JsVal where
  | null : JsVal
  | undef : JsVal
  | bool : Bool → JsVal
  | num : Int → JsVal
  | str : String → JsVal
  | arr : List JsVal → JsVal
  | obj : List (String × JsVal) → JsVal

mutual

/-- Structural value equality, modelling the `SameValueZero` comparison used
by JavaScript `Map` keys (ids in this code are primitives, for which
`SameValueZero` is structural). -/
def jsEq : JsVal → JsVal → Bool
  | .null, .null => true
  | .undef, .undef => true
  | .bool a, .bool b => a == b
  | .num a, .num b => a == b
  | .str a, .str b => a == b
  | .arr a, .arr b => jsEqList a b
  | .obj a, .obj b => jsEqFields a b
  | _, _ => false

def jsEqList : List JsVal → List JsVal → Bool
  | [], [] => true
  | a :: as, b :: bs => jsEq a b && jsEqList as bs
  | _, _ => false

def jsEqFields : List (String × JsVal) → List (String × JsVal) → Bool
  | [], [] => true
  | (k₁, v₁) :: as, (k₂, v₂) :: bs => k₁ == k₂ && jsEq v₁ v₂ && jsEqFields as bs
  | _, _ => false

end

/-- JavaScript strict equality `v === 'lit'` against a string literal (the
only form of `===` this repository uses on data values): true exactly for the
equal string. -/
def jsEqStr (v : JsVal) (s : String) : Bool :=
  match v with
  | .str t => t == s
  | _ => false

/-- JavaScript truthiness: `null`, `undefined`, `false`, `0` and `""` are
falsy; every other value (including every array and object) is truthy. -/
def truthy : JsVal → Bool
  | .null => false
  | .undef => false
  | .bool b => b
  | .num n => n != 0
  | .str s => s != ""
  | .arr _ => true
  | .obj _ => true

/-- Property read `v[k]` on a value that is not `null`/`undefined`: objects
look the key up (first binding wins, `undefined` when absent); primitives and
arrays yield `undefined` for the named properties used by this code. -/
def propOf : JsVal → String → JsVal
  | .obj fields, k => (fields.lookup k).getD .undef
  | _, _ => (.undef)

/-- Property read `v[k]` with JavaScript error semantics: reading a property
of `null` or `undefined` throws a `TypeError`; otherwise it is `propOf`. -/
def getProp (v : JsVal) (k : String) : Except String JsVal :=
  match v with
  | .null => .error "TypeError"
  | .undef => .error "TypeError"
  | _ => .ok (propOf v k)

/-- Key list of an object value (used to state claims about payload shape). -/
def jsKeys : JsVal → List String
  | .obj fields => fields.map Prod.fst
  | _ => []

theorem getProp_of_truthy (v : JsVal) (k : String) (h : truthy v = true) :
    getProp v k = .ok (propOf v k) := by
  cases v <;> simp_all [truthy, getProp]

/-! ## The substring extraction utility (`src/utils/getString.js`)

```js
function getString(string, left, right) {
    try {
        return string.split(left)[1].split(right)[0];
    } catch {
        return false;
    }
}
```
-/

/-- Prepend a character to the first piece of a split result. -/
def consHead (c : Char) : List (List Char) → List (List Char)
  | [] => [[c]]
  | h :: t => (c :: h) :: t

/-- One step of JavaScript `String.prototype.split` with a non-empty
separator, on character lists; the `fuel` argument is an upper bound on the
input length that makes the recursion structural (callers pass the length
itself). -/
def splitGo (sep : List Char) : Nat → List Char → List (List Char)
  | _, [] => [[]]
  | 0, s => [s]
  | fuel + 1, c :: rest =>
      if sep.isPrefixOf (c :: rest) then
        [] :: splitGo sep fuel (List.drop (sep.length - 1) rest)
      else
        consHead c (splitGo sep fuel rest)

/-- `splitGo` with the canonical fuel: the list's own length. -/
def listSplit (sep s : List Char) : List (List Char) :=
  splitGo sep s.length s

/-- JavaScript `s.split(sep)`.  An empty separator splits into the list of
single characters (the empty string then yields the empty array). -/
def jsSplit (s sep : String) : List String :=
  if sep.data = [] then s.data.map (fun c => String.mk [c])
  else (listSplit sep.data s.data).map String.mk

/-- Result of `getString`: a string, the literal `false` (the catch branch),
or `undefined` (when `[0]` is read from an empty split array). -/
def getString (s left right : String) : JsVal :=
  match (jsSplit s left).get? 1 with
  | none => .bool false
  | some mid =>
      match (jsSplit mid right).get? 0 with
      | none => .undef
      | some res => .str res

example : jsSplit "aXbXc" "X" = ["a", "b", "c"] := by decide
example : jsSplit "XX" "X" = ["", "", ""] := by decide
example : jsSplit "aaa" "aa" = ["", "a"] := by decide
example : getString "a=user: {x:1},\nrest" "user: " ",\n" = .str "{x:1}" := rfl
example : getString "no marker here" "user: " ",\n" = .bool false := rfl
example : getString "ab" "a" "c" = .str "b" := rfl

/-- Index of the first occurrence of `sep` in a character list (`none` when
absent) — the specification-side notion used to characterize `getString`. -/
def firstOcc (sep : List Char) : List Char → Option Nat
  | [] => if sep.isPrefixOf [] then some 0 else none
  | c :: rest =>
      if sep.isPrefixOf (c :: rest) then some 0
      else (firstOcc sep rest).map (· + 1)

/-- The text `getString` extracts, in first-occurrence terms: locate the
first occurrence of `l`; the relevant segment runs from just after it to the
next occurrence of `l` (to the end when `l` occurs only once); the result is
that segment truncated before the first occurrence of `r` inside it (the
whole segment when `r` does not occur there); `none` — the `false`
sentinel — exactly when `l` is absent. -/
def betweenSpec (s l r : List Char) : Option (List Char) :=
  match firstOcc l s with
  | none => none
  | some i =>
      let after := s.drop (i + l.length)
      let seg := after.take ((firstOcc l after).getD after.length)
      some (seg.take ((firstOcc r seg).getD seg.length))

theorem splitGo_fuel_irrel (sep : List Char) :
    ∀ (f1 f2 : Nat) (s : List Char), s.length ≤ f1 → s.length ≤ f2 →
    splitGo sep f1 s = splitGo sep f2 s := by
  intro f1
  induction f1 with
  | zero =>
      intro f2 s h1 _
      have hnil : s = [] := List.length_eq_zero.mp (Nat.le_zero.mp h1)
      subst hnil
      cases f2 <;> rfl
  | succ n ih =>
      intro f2 s h1 h2
      match s with
      | [] => cases f2 <;> rfl
      | c :: rest =>
          obtain ⟨m, rfl⟩ : ∃ m, f2 = m + 1 := by
            cases f2 with
            | zero => simp at h2
            | succ m => exact ⟨m, rfl⟩
          have e1 : splitGo sep (n + 1) (c :: rest) =
              if sep.isPrefixOf (c :: rest) then
                [] :: splitGo sep n (List.drop (sep.length - 1) rest)
              else consHead c (splitGo sep n rest) := rfl
          have e2 : splitGo sep (m + 1) (c :: rest) =
              if sep.isPrefixOf (c :: rest) then
                [] :: splitGo sep m (List.drop (sep.length - 1) rest)
              else consHead c (splitGo sep m rest) := rfl
          rw [e1, e2]
          have hr1 : rest.length ≤ n := by simpa using h1
          have hr2 : rest.length ≤ m := by simpa using h2
          have hdn : (List.drop (sep.length - 1) rest).length ≤ rest.length := by
            rw [List.length_drop]; omega
          by_cases hp : sep.isPrefixOf (c :: rest) = true
          · rw [if_pos hp, ih m _ (le_trans hdn hr1) (le_trans hdn hr2), if_pos hp]
          · rw [if_neg hp, ih m rest hr1 hr2, if_neg hp]

theorem listSplit_cons (sep : List Char) (c : Char) (rest : List Char) :
    listSplit sep (c :: rest) =
      if sep.isPrefixOf (c :: rest) then
        [] :: listSplit sep (List.drop (sep.length - 1) rest)
      else consHead c (listSplit sep rest) := by
  have e2 : listSplit sep (c :: rest) =
      if sep.isPrefixOf (c :: rest) then
        [] :: splitGo sep rest.length (List.drop (sep.length - 1) rest)
      else consHead c (splitGo sep rest.length rest) := rfl
  rw [e2]
  have hdn : (List.drop (sep.length - 1) rest).length ≤ rest.length := by
    rw [List.length_drop]; omega
  by_cases hp : sep.isPrefixOf (c :: rest) = true
  · rw [if_pos hp, if_pos hp,
      splitGo_fuel_irrel sep rest.length _ _ hdn (Nat.le_refl _)]
    rfl
  · rw [if_neg hp, if_neg hp]
    rfl

/-- A non-empty separator never matches at the end of the text. -/
theorem firstOcc_nil (sep : List Char) (hsep : sep ≠ []) :
    firstOcc sep [] = none := by
  unfold firstOcc
  rcases sep with _ | ⟨a, tl⟩
  · exact absurd rfl hsep
  · rfl

/-- JavaScript `split` in first-occurrence terms: the first piece is the text
before the first occurrence of the separator, the remaining pieces split the
text after it; one piece — the whole text — when the separator is absent. -/
theorem listSplit_eq (sep : List Char) (hsep : sep ≠ []) :
    ∀ (s : List Char), listSplit sep s =
      match firstOcc sep s with
      | none => [s]
      | some i => s.take i :: listSplit sep (s.drop (i + sep.length)) := by
  intro s
  induction s with
  | nil =>
      rw [firstOcc_nil sep hsep]
      rfl
  | cons c rest ih =>
      rw [listSplit_cons]
      by_cases hp : sep.isPrefixOf (c :: rest) = true
      · rw [if_pos hp]
        have hf : firstOcc sep (c :: rest) = some 0 := by
          show (if sep.isPrefixOf (c :: rest) = true then some 0
            else (firstOcc sep rest).map (· + 1)) = some 0
          rw [if_pos hp]
        rw [hf]
        show [] :: listSplit sep (List.drop (sep.length - 1) rest) =
          [] :: listSplit sep (List.drop (0 + sep.length) (c :: rest))
        rcases sep with _ | ⟨a, tl⟩
        · exact absurd rfl hsep
        · show [] :: listSplit (a :: tl) (List.drop tl.length rest) =
            [] :: listSplit (a :: tl) (List.drop (0 + (tl.length + 1)) (c :: rest))
          rw [Nat.zero_add]
          rfl
      · rw [if_neg hp]
        have hf : firstOcc sep (c :: rest) = (firstOcc sep rest).map (· + 1) := by
          show (if sep.isPrefixOf (c :: rest) = true then some 0
            else (firstOcc sep rest).map (· + 1)) = (firstOcc sep rest).map (· + 1)
          rw [if_neg hp]
        rw [hf, ih]
        rcases ho : firstOcc sep rest with _ | j
        · rfl
        · show consHead c (List.take j rest :: listSplit sep (List.drop (j + sep.length) rest)) =
            List.take (j + 1) (c :: rest) ::
              listSplit sep (List.drop (j + 1 + sep.length) (c :: rest))
          rw [consHead]
          have hd : List.drop (j + 1 + sep.length) (c :: rest) =
              List.drop (j + sep.length) rest := by
            rw [Nat.add_right_comm]
            rfl
          rw [hd]
          rfl

theorem listSplit_head (sep : List Char) (hsep : sep ≠ []) (s : List Char) :
    (listSplit sep s).get? 0 =
      some (s.take ((firstOcc sep s).getD s.length)) := by
  rw [listSplit_eq sep hsep s]
  rcases firstOcc sep s with _ | i
  · show some s = some (s.take s.length)
    rw [List.take_length]
  · rfl

theorem listSplit_second (sep : List Char) (hsep : sep ≠ []) (s : List Char) :
    (listSplit sep s).get? 1 =
      match firstOcc sep s with
      | none => none
      | some i =>
          some ((s.drop (i + sep.length)).take
            ((firstOcc sep (s.drop (i + sep.length))).getD
              (s.drop (i + sep.length)).length)) := by
  rw [listSplit_eq sep hsep s]
  rcases firstOcc sep s with _ | i
  · rfl
  · show (listSplit sep (s.drop (i + sep.length))).get? 0 = _
    rw [listSplit_head sep hsep]

/-- **C5 (counterexample).** Two of the claim's general statements fail on
the code.  (1) An absent right delimiter does not give the not-found
sentinel: `getString "ab" "a" "c"` returns the string `"b"` (the suffix
after the left delimiter) even though `"c"` never occurs.  (2) The result is
not the text strictly between the first left delimiter and the first
subsequent right delimiter: on `"xLaLbRy"` with delimiters `"L"`/`"R"` the
code returns `"a"` (cut at the *second* occurrence of the left delimiter),
not `"aLb"`. -/
theorem C5_counterexample_right_absent_and_second_left :
    (getString "ab" "a" "c" = JsVal.str "b" ∧
      JsVal.str "b" ≠ JsVal.bool false) ∧
    (getString "xLaLbRy" "L" "R" = JsVal.str "a" ∧
      JsVal.str "a" ≠ JsVal.str "aLb") := by
  refine ⟨⟨rfl, fun h => JsVal.noConfusion h⟩, ⟨rfl, fun h => ?_⟩⟩
  rw [JsVal.str.injEq] at h
  exact absurd h (by decide)

/-- **C5 (amended).** For non-empty delimiters, `getString` returns the
sentinel `false` exactly when the left delimiter is absent; otherwise it
returns the segment running from just after the first occurrence of the left
delimiter to its next occurrence (to the end of the text if the left
delimiter occurs only once), truncated before the first occurrence of the
right delimiter inside that segment (the whole segment when the right
delimiter does not occur there).  It never throws (it is a total function).
The claim's two concrete examples hold as stated. -/
theorem C5_getString_first_occurrence_characterization
    (s l r : String) (hl : l.data ≠ []) (hr : r.data ≠ []) :
    (getString s l r =
      match betweenSpec s.data l.data r.data with
      | none => JsVal.bool false
      | some seg => JsVal.str (String.mk seg)) ∧
    getString "a=user: {x:1},\nrest" "user: " ",\n" = JsVal.str "{x:1}" ∧
    getString "no marker here" "user: " ",\n" = JsVal.bool false := by
  refine ⟨?_, rfl, rfl⟩
  have hmap1 : (jsSplit s l).get? 1 =
      Option.map String.mk ((listSplit l.data s.data).get? 1) := by
    unfold jsSplit
    rw [if_neg hl, List.get?_map]
  rcases ho : firstOcc l.data s.data with _ | i
  · have h2 : (listSplit l.data s.data).get? 1 = none := by
      rw [listSplit_second l.data hl s.data, ho]
    have h3 : (jsSplit s l).get? 1 = none := by
      rw [hmap1, h2]; rfl
    unfold getString betweenSpec
    rw [h3, ho]
  · set A := s.data.drop (i + l.data.length) with hA
    set seg := A.take ((firstOcc l.data A).getD A.length) with hseg
    have h2 : (listSplit l.data s.data).get? 1 = some seg := by
      rw [listSplit_second l.data hl s.data, ho]
    have h3 : (jsSplit s l).get? 1 = some (String.mk seg) := by
      rw [hmap1, h2]; rfl
    have h4 : (jsSplit (String.mk seg) r).get? 0 =
        some (String.mk (seg.take ((firstOcc r.data seg).getD seg.length))) := by
      unfold jsSplit
      rw [if_neg hr, List.get?_map, listSplit_head r.data hr]
      rfl
    unfold getString betweenSpec
    rw [ho, h3]
    show (match (jsSplit (String.mk seg) r).get? 0 with
      | none => JsVal.undef
      | some res => JsVal.str res) = _
    rw [h4]

theorem C5_getString_first_occurrence_characterization_witness :
    ("user: ".data ≠ ([] : List Char) ∧ ",\n".data ≠ ([] : List Char)) ∧
    (getString "a=user: {x:1},\nrest" "user: " ",\n" =
      match betweenSpec "a=user: {x:1},\nrest".data "user: ".data ",\n".data with
      | none => JsVal.bool false
      | some seg => JsVal.str (String.mk seg)) ∧
    getString "no marker here" "user: " ",\n" = JsVal.bool false := by
  have h1 : "user: ".data ≠ ([] : List Char) := by decide
  have h2 : ",\n".data ≠ ([] : List Char) := by decide
  obtain ⟨ha, _, hc⟩ := C5_getString_first_occurrence_characterization
    "a=user: {x:1},\nrest" "user: " ",\n" h1 h2
  exact ⟨⟨h1, h2⟩, ha, hc⟩

/-! ## The queue/gate coordinator (`src/mbe.js`)

`_tryProcessBrowserQueue` and `_tryProcessApiQueue` are the same routine over
two disjoint pieces of instance state (`browserActionQueue` / `apiActionQueue`,
`isBrowserReady` / `isApiReady`, `isProcessingBrowserQueue` /
`isProcessingApiQueue`) differing only in the text of the error log; the model
is that routine over one `QueueState` carrying the label.

An `Action` is a queued async closure; the model records its observable
behaviour during the single-threaded drain: the id it reports when run,
whether its promise rejects (together with its error message), and the
actions that `enqueue` calls arriving during its `await` push onto the same
queue (those calls run `_tryProcess*Queue`, which returns immediately because
the `isProcessing*` flag is set, so their whole effect is the push — exactly
how the model appends them to the tail). -/

inductive Action where
  | mk : Nat → Bool → String → List Action → Action

def Action.id : Action → Nat
  | .mk i _ _ _ => i

def Action.fails : Action → Bool
  | .mk _ f _ _ => f

def Action.emsg : Action → String
  | .mk _ _ m _ => m

def Action.spawns : Action → List Action
  | .mk _ _ _ s => s

mutual

/-- Number of actions in an action's spawn tree, itself included. -/
def Action.size : Action → Nat
  | .mk _ _ _ s => 1 + Action.sizeList s

def Action.sizeList : List Action → Nat
  | [] => 0
  | a :: as => Action.size a + Action.sizeList as

end

theorem Action.sizeList_nil : Action.sizeList [] = 0 := rfl

theorem Action.sizeList_cons (a : Action) (as : List Action) :
    Action.sizeList (a :: as) = a.size + Action.sizeList as := rfl

theorem Action.sizeList_append (xs ys : List Action) :
    Action.sizeList (xs ++ ys) = Action.sizeList xs + Action.sizeList ys := by
  induction xs with
  | nil => show Action.sizeList ys = 0 + Action.sizeList ys; omega
  | cons a as ih =>
      show a.size + Action.sizeList (as ++ ys) = _
      rw [ih, Action.sizeList_cons]
      omega

theorem Action.size_eq (a : Action) : a.size = 1 + Action.sizeList a.spawns := by
  cases a with
  | mk i f m s => rfl

/-- The per-queue state of the coordinator: the pending FIFO queue, the
readiness gate (`isBrowserReady` / `isApiReady`), the re-entrancy flag
(`isProcessing*Queue`), plus the observable trace: ids of executed actions in
execution order and emitted `(level, message)` log events. -/
structure QueueState where
  label : String
  queue : List Action
  gate : Bool
  draining : Bool
  executed : List Nat
  logs : List (String × String)

/-- A fresh queue, as set up by the `Engine` constructor. -/
def initQueue (label : String) : QueueState :=
  { label := label, queue := [], gate := false, draining := false,
    executed := [], logs := [] }

/-- The `while (queue.length > 0)` loop body of `_tryProcess*Queue`:
`shift()` the head, `await action()` inside `try`/`catch` (a rejection is
logged at ERROR and the loop continues), and re-check the queue — which now
also holds whatever the action's `await` let other callers enqueue. -/
def drainLoop (s : QueueState) : QueueState :=
  match h : s.queue with
  | [] => s
  | a :: rest =>
      drainLoop { s with
        queue := rest ++ a.spawns,
        executed := s.executed ++ [a.id],
        logs := s.logs ++
          (if a.fails then [("ERROR", s.label ++ " failed: " ++ a.emsg)] else []) }
termination_by Action.sizeList s.queue
decreasing_by
  rw [h]
  rw [Action.sizeList_append, Action.sizeList_cons]
  have := Action.size_eq a
  omega

/-- `_tryProcessBrowserQueue` / `_tryProcessApiQueue`: return immediately
when the gate is closed or a drain is already running; otherwise set the
re-entrancy flag, run the drain loop, and clear the flag. -/
def tryDrain (s : QueueState) : QueueState :=
  if s.gate = false ∨ s.draining = true then s
  else
    let s' := drainLoop { s with draining := true }
    { s' with draining := false }

/-- A caller-facing operation (`getActivities` / `getCourses`): push the
action closure onto the queue's tail, then invoke the drain attempt. -/
def enqueue (a : Action) (s : QueueState) : QueueState :=
  tryDrain { s with queue := s.queue ++ [a] }

def enqueueAll (s : QueueState) (as : List Action) : QueueState :=
  as.foldl (fun s a => enqueue a s) s

/-- Opening a queue's gate (`initialize` for the browser queue,
`_checkApiReady` for the api queue): set the readiness flag, emit the INFO
log, and invoke the drain attempt. -/
def openGate (msg : String) (s : QueueState) : QueueState :=
  tryDrain { s with gate := true, logs := s.logs ++ [("INFO", msg)] }

mutual

/-- All ids in an action's spawn tree, the action's own id first. -/
def Action.ids : Action → List Nat
  | .mk i _ _ s => i :: Action.idsList s

def Action.idsList : List Action → List Nat
  | [] => []
  | a :: as => a.ids ++ Action.idsList as

end

theorem Action.idsList_nil : Action.idsList [] = [] := rfl

theorem Action.idsList_cons (a : Action) (as : List Action) :
    Action.idsList (a :: as) = a.ids ++ Action.idsList as := rfl

theorem Action.ids_eq (a : Action) : a.ids = a.id :: Action.idsList a.spawns := by
  cases a with
  | mk i f m s => rfl

theorem Action.idsList_append (xs ys : List Action) :
    Action.idsList (xs ++ ys) = Action.idsList xs ++ Action.idsList ys := by
  induction xs with
  | nil => rfl
  | cons a as ih =>
      show a.ids ++ Action.idsList (as ++ ys) = _
      rw [ih, Action.idsList_cons, List.append_assoc]

/-- The ERROR log events a drain of `as` produces: one per failing action. -/
def errLogs (label : String) (as : List Action) : List (String × String) :=
  (as.filter Action.fails).map (fun a => ("ERROR", label ++ " failed: " ++ a.emsg))

theorem drainLoop_eq_nil (s : QueueState) (h : s.queue = []) : drainLoop s = s := by
  rw [drainLoop]
  split
  · rfl
  · rename_i a rest h'
    rw [h] at h'
    cases h'

theorem drainLoop_eq_cons (s : QueueState) (a : Action) (rest : List Action)
    (h : s.queue = a :: rest) :
    drainLoop s = drainLoop { s with
        queue := rest ++ a.spawns,
        executed := s.executed ++ [a.id],
        logs := s.logs ++
          (if a.fails then [("ERROR", s.label ++ " failed: " ++ a.emsg)] else []) } := by
  conv_lhs => rw [drainLoop]
  split
  · rename_i h'
    rw [h] at h'
    cases h'
  · rename_i a' rest' h'
    rw [h] at h'
    cases h'
    rfl

/-- Characterization of the drain loop when no action enqueues mid-drain:
the queue empties, the queued ids are appended to the execution trace in FIFO
order, and one ERROR log is appended per failing action; the gate, the
re-entrancy flag and the label are untouched. -/
theorem drainLoop_no_spawn :
    ∀ (q : List Action) (s : QueueState), s.queue = q → (∀ a ∈ q, a.spawns = []) →
    drainLoop s = { s with
                    queue := [],
                    executed := s.executed ++ q.map Action.id,
                    logs := s.logs ++ errLogs s.label q } := by
  intro q
  induction q with
  | nil =>
      intro s hq _
      rw [drainLoop_eq_nil s hq]
      cases s
      simp_all [errLogs]
  | cons a rest ih =>
      intro s hq hsp
      rw [drainLoop_eq_cons s a rest hq]
      rw [ih { s with
               queue := rest ++ a.spawns,
               executed := s.executed ++ [a.id],
               logs := s.logs ++
                 (if a.fails then [("ERROR", s.label ++ " failed: " ++ a.emsg)] else []) }
            (by simp [hsp a (by simp)]) (fun b hb => hsp b (by simp [hb]))]
      simp only [errLogs, List.filter_cons, List.map_cons, List.append_assoc]
      cases hf : a.fails <;> simp [hf]

/-- The drain loop always terminates with an empty queue, touches neither
the gate, the re-entrancy flag nor the label, and appends to the execution
trace exactly the ids of the queued actions and of all the actions their
executions enqueued (in some order: the `Perm`). -/
theorem drainLoop_char :
    ∀ (n : Nat) (s : QueueState), Action.sizeList s.queue ≤ n →
    (drainLoop s).queue = [] ∧ (drainLoop s).gate = s.gate ∧
    (drainLoop s).draining = s.draining ∧ (drainLoop s).label = s.label ∧
    (drainLoop s).executed.Perm (s.executed ++ Action.idsList s.queue) := by
  intro n
  induction n with
  | zero =>
      intro s hn
      match hq : s.queue with
      | [] =>
          rw [drainLoop_eq_nil s hq]
          simp [hq, Action.idsList_nil]
      | a :: rest =>
          rw [hq, Action.sizeList_cons, Action.size_eq] at hn
          omega
  | succ n ih =>
      intro s hn
      match hq : s.queue with
      | [] =>
          rw [drainLoop_eq_nil s hq]
          simp [hq, Action.idsList_nil]
      | a :: rest =>
          rw [drainLoop_eq_cons s a rest hq]
          rw [hq, Action.sizeList_cons, Action.size_eq] at hn
          have hn' : Action.sizeList (rest ++ a.spawns) ≤ n := by
            rw [Action.sizeList_append]; omega
          obtain ⟨h1, h2, h3, h4, h5⟩ := ih { s with
            queue := rest ++ a.spawns,
            executed := s.executed ++ [a.id],
            logs := s.logs ++
              (if a.fails then [("ERROR", s.label ++ " failed: " ++ a.emsg)] else []) } hn'
          refine ⟨h1, h2, h3, h4, ?_⟩
          refine h5.trans ?_
          show ((s.executed ++ [a.id]) ++ Action.idsList (rest ++ a.spawns)).Perm
            (s.executed ++ Action.idsList (a :: rest))
          rw [Action.idsList_append, Action.idsList_cons, Action.ids_eq]
          simp only [List.append_assoc, List.cons_append, List.singleton_append,
            List.nil_append, List.append_nil]
          exact List.Perm.append_left s.executed (List.perm_append_comm.cons a.id)

theorem enqueue_closed_gate (a : Action) (s : QueueState) (h : s.gate = false) :
    enqueue a s = { s with queue := s.queue ++ [a] } := by
  simp [enqueue, tryDrain, h]

theorem enqueueAll_closed_gate :
    ∀ (as : List Action) (s : QueueState), s.gate = false →
    enqueueAll s as = { s with queue := s.queue ++ as } := by
  intro as
  induction as with
  | nil => intro s h; simp [enqueueAll]
  | cons a rest ih =>
      intro s h
      show enqueueAll (enqueue a s) rest = _
      rw [enqueue_closed_gate a s h, ih _ (by simp [h])]
      simp

/-- Opening the gate of a quiescent queue whose pending actions enqueue
nothing mid-drain: every pending action runs, in FIFO order, their failures
are logged, and the queue ends empty. -/
theorem openGate_no_spawn (msg : String) (s : QueueState)
    (hd : s.draining = false) (hsp : ∀ a ∈ s.queue, a.spawns = []) :
    openGate msg s = { s with
                       gate := true,
                       queue := [],
                       executed := s.executed ++ s.queue.map Action.id,
                       logs := (s.logs ++ [("INFO", msg)]) ++ errLogs s.label s.queue } := by
  unfold openGate tryDrain
  rw [if_neg (by simp [hd])]
  rw [drainLoop_no_spawn s.queue { s with
        gate := true,
        draining := true,
        logs := s.logs ++ [("INFO", msg)] } rfl hsp]
  cases s
  simp_all

/-- Opening the gate of a quiescent queue, with arbitrary mid-drain
enqueues: the queue ends empty with the flag cleared, and the execution
trace gains exactly the ids of the pending actions and of everything their
executions enqueued. -/
theorem openGate_char (msg : String) (s : QueueState) (hd : s.draining = false) :
    (openGate msg s).queue = [] ∧ (openGate msg s).draining = false ∧
    (openGate msg s).gate = true ∧
    (openGate msg s).executed.Perm (s.executed ++ Action.idsList s.queue) := by
  unfold openGate tryDrain
  rw [if_neg (by simp [hd])]
  obtain ⟨h1, h2, h3, h4, h5⟩ := drainLoop_char
    (Action.sizeList ({ s with
        gate := true,
        draining := true,
        logs := s.logs ++ [("INFO", msg)] } : QueueState).queue)
    { s with gate := true, draining := true, logs := s.logs ++ [("INFO", msg)] }
    (Nat.le_refl _)
  exact ⟨h1, rfl, by rw [h2], h5⟩

/-- **C1.** For every queue (browser or api — the model is the common drain
routine, parametrized by the queue's log label) and every sequence of actions
enqueued while the gate is closed: none executes before the gate opens (the
trace is empty and the queue holds them all, in order), and once the gate
opens and the drain is invoked, each executes exactly once in exact enqueue
order (the trace equals the list of their ids) and the queue is empty. -/
theorem C1_gate_fifo_exactly_once (label msg : String) (as : List Action)
    (hsp : ∀ a ∈ as, a.spawns = []) :
    (enqueueAll (initQueue label) as).executed = [] ∧
    (enqueueAll (initQueue label) as).queue = as ∧
    (openGate msg (enqueueAll (initQueue label) as)).executed = as.map Action.id ∧
    (openGate msg (enqueueAll (initQueue label) as)).queue = [] := by
  rw [enqueueAll_closed_gate as (initQueue label) rfl]
  rw [openGate_no_spawn msg _ rfl (by simpa [initQueue] using hsp)]
  simp [initQueue]

theorem C1_gate_fifo_exactly_once_witness :
    (∀ a ∈ [Action.mk 10 false "" [], Action.mk 20 true "boom" []], a.spawns = []) ∧
    ((enqueueAll (initQueue "Browser action")
        [Action.mk 10 false "" [], Action.mk 20 true "boom" []]).executed = [] ∧
     (enqueueAll (initQueue "Browser action")
        [Action.mk 10 false "" [], Action.mk 20 true "boom" []]).queue =
          [Action.mk 10 false "" [], Action.mk 20 true "boom" []] ∧
     (openGate "go" (enqueueAll (initQueue "Browser action")
        [Action.mk 10 false "" [], Action.mk 20 true "boom" []])).executed = [10, 20] ∧
     (openGate "go" (enqueueAll (initQueue "Browser action")
        [Action.mk 10 false "" [], Action.mk 20 true "boom" []])).queue = []) := by
  have hsp : ∀ a ∈ [Action.mk 10 false "" [], Action.mk 20 true "boom" []],
      a.spawns = [] := by
    intro a ha
    rcases List.mem_cons.mp ha with h | h
    · subst h; rfl
    · have h' := List.mem_singleton.mp h
      subst h'; rfl
  obtain ⟨h1, h2, h3, h4⟩ := C1_gate_fifo_exactly_once "Browser action" "go"
    [Action.mk 10 false "" [], Action.mk 20 true "boom" []] hsp
  exact ⟨hsp, h1, h2, by rw [h3]; rfl, h4⟩

/-- **C2.** A failing (rejecting) action does not halt the drain of its
queue: with arbitrary per-action failure flags, every enqueued action still
executes in FIFO order, and each failure is caught at the action boundary
and reported as an ERROR log event carrying the queue's label and the
failure's message, after which the loop continues. -/
theorem C2_failure_does_not_halt_drain (label msg : String) (as : List Action)
    (hsp : ∀ a ∈ as, a.spawns = []) :
    (openGate msg (enqueueAll (initQueue label) as)).executed = as.map Action.id ∧
    (openGate msg (enqueueAll (initQueue label) as)).logs =
      ("INFO", msg) ::
        (as.filter Action.fails).map
          (fun a => ("ERROR", label ++ " failed: " ++ a.emsg)) := by
  rw [enqueueAll_closed_gate as (initQueue label) rfl]
  rw [openGate_no_spawn msg _ rfl (by simpa [initQueue] using hsp)]
  simp [initQueue, errLogs]

theorem C2_failure_does_not_halt_drain_witness :
    (∀ a ∈ [Action.mk 1 true "first fails" [], Action.mk 2 false "" [],
            Action.mk 3 true "third fails" []], a.spawns = []) ∧
    ((openGate "ready" (enqueueAll (initQueue "API action")
        [Action.mk 1 true "first fails" [], Action.mk 2 false "" [],
         Action.mk 3 true "third fails" []])).executed = [1, 2, 3] ∧
     (openGate "ready" (enqueueAll (initQueue "API action")
        [Action.mk 1 true "first fails" [], Action.mk 2 false "" [],
         Action.mk 3 true "third fails" []])).logs =
       [("INFO", "ready"), ("ERROR", "API action failed: first fails"),
        ("ERROR", "API action failed: third fails")]) := by
  have hsp : ∀ a ∈ [Action.mk 1 true "first fails" [], Action.mk 2 false "" [],
      Action.mk 3 true "third fails" []], a.spawns = [] := by
    intro a ha
    rcases List.mem_cons.mp ha with h | h
    · subst h; rfl
    rcases List.mem_cons.mp h with h' | h'
    · subst h'; rfl
    have h'' := List.mem_singleton.mp h'
    subst h''; rfl
  obtain ⟨h1, h2⟩ := C2_failure_does_not_halt_drain "API action" "ready"
    [Action.mk 1 true "first fails" [], Action.mk 2 false "" [],
     Action.mk 3 true "third fails" []] hsp
  exact ⟨hsp, by rw [h1]; rfl, by rw [h2]; rfl⟩

/-- **C3.** Enqueues arriving while a drain is in progress (modelled as the
actions each executing action's `await` lets other callers push) are never
lost: when the drain loop terminates and the re-entrancy flag is cleared the
queue is empty, and the execution trace contains exactly the ids of the
originally enqueued actions and of every action appended mid-drain,
regardless of how many were appended. -/
theorem C3_mid_drain_enqueues_not_lost (label msg : String) (as : List Action) :
    (openGate msg (enqueueAll (initQueue label) as)).queue = [] ∧
    (openGate msg (enqueueAll (initQueue label) as)).draining = false ∧
    ((openGate msg (enqueueAll (initQueue label) as)).executed).Perm
      (Action.idsList as) := by
  rw [enqueueAll_closed_gate as (initQueue label) rfl]
  obtain ⟨h1, h2, h3, h4⟩ := openGate_char msg
    { initQueue label with queue := (initQueue label).queue ++ as } rfl
  refine ⟨h1, h2, ?_⟩
  simpa [initQueue] using h4

/-! ## The credential harvester (`_setupNetworkInterception`, `_checkApiReady`)

The route handler records `headers.cookie` into `this.cookie` when truthy and
then calls `_checkApiReady()`; the response listener on `GET …/ultra` extracts
the `user: `/`,\n`-delimited fragment with `getString`, and when that is
truthy parses it with `JSON.parse` into `this.userData` and calls
`_checkApiReady()` (parse failures are swallowed by the `try`/`catch`).
`JSON.parse` is modelled as an arbitrary partial function `parse` carried as
a parameter: `none` is a thrown parse error. -/

structure EngineState where
  cookie : JsVal
  userData : JsVal
  api : QueueState

/-- Engine construction: `this.cookie = null`, `this.userData = null`, empty
api queue with `isApiReady = false`. -/
def initEngine : EngineState :=
  { cookie := .null, userData := .null, api := initQueue "API action" }

/-- `_checkApiReady`: `if (this.isApiReady) return;` then
`if (this.cookie && this.userData)` — JavaScript truthiness — set the gate,
log, and run `_tryProcessApiQueue` (the `openGate` composite). -/
def checkApiReady (s : EngineState) : EngineState :=
  if s.api.gate then s
  else if truthy s.cookie && truthy s.userData then
    { s with api := openGate "API credentials acquired. API queue is now ready." s.api }
  else s

/-- The observable events that drive the harvester and the api queue:
an intercepted request (carrying the value of `headers.cookie`, `undefined`
when absent), the body of a `GET …/ultra` response, and a caller invoking
`getCourses()` (which enqueues an api action). -/
inductive NetEvent where
  | request : JsVal → NetEvent
  | ultraResponse : String → NetEvent
  | apiCall : Action → NetEvent

/-- The route handler: `if (headers.cookie) this.cookie = headers.cookie;`
then (after `route.continue()`) `this._checkApiReady()`. -/
def handleRequest (s : EngineState) (c : JsVal) : EngineState :=
  checkApiReady (cond (truthy c) { s with cookie := c } s)

/-- The `GET …/ultra` response listener: extract the `user: `/`,\n` fragment;
when it is truthy, `JSON.parse` it into `this.userData` and call
`_checkApiReady()`; extraction misses and parse errors leave the state
unchanged (the `catch` swallows them). -/
def handleUltra (parse : String → Option JsVal) (s : EngineState)
    (body : String) : EngineState :=
  match getString body "user: " ",\n" with
  | .str u =>
      cond (truthy (.str u))
        (match parse u with
         | some ud => checkApiReady { s with userData := ud }
         | none => s)
        s
  | _ => s

def stepEngine (parse : String → Option JsVal) (s : EngineState) :
    NetEvent → EngineState
  | .request c => handleRequest s c
  | .ultraResponse body => handleUltra parse s body
  | .apiCall a => { s with api := enqueue a s.api }

def runEngine (parse : String → Option JsVal) (es : List NetEvent) : EngineState :=
  es.foldl (stepEngine parse) initEngine

theorem tryDrain_gate (s : QueueState) : (tryDrain s).gate = s.gate := by
  unfold tryDrain
  split
  · rfl
  · exact (drainLoop_char (Action.sizeList
      ({ s with draining := true } : QueueState).queue)
      { s with draining := true } (Nat.le_refl _)).2.1

theorem openGate_gate (msg : String) (s : QueueState) :
    (openGate msg s).gate = true := by
  unfold openGate
  rw [tryDrain_gate]

theorem enqueue_gate (a : Action) (s : QueueState) :
    (enqueue a s).gate = s.gate := by
  unfold enqueue
  rw [tryDrain_gate]

/-- What one `_checkApiReady` call does to the observable state: it never
touches the recorded credentials, and the gate ends open exactly when it
already was or both credentials are truthy at the call. -/
theorem checkApiReady_spec (s : EngineState) :
    (checkApiReady s).cookie = s.cookie ∧
    (checkApiReady s).userData = s.userData ∧
    (checkApiReady s).api.gate =
      (s.api.gate || (truthy s.cookie && truthy s.userData)) := by
  unfold checkApiReady
  rcases hg : s.api.gate with _ | _
  · rcases hc : truthy s.cookie && truthy s.userData with _ | _
    · simp [hg, hc]
    · simp [hg, hc, openGate_gate]
  · simp [hg]

theorem runEngine_snoc (parse : String → Option JsVal) (es : List NetEvent)
    (e : NetEvent) :
    runEngine parse (es ++ [e]) = stepEngine parse (runEngine parse es) e := by
  unfold runEngine
  rw [List.foldl_append]
  rfl

/-- `handleRequest` is a `_checkApiReady` call on the state with the cookie
possibly (when truthy) re-recorded. -/
theorem handleRequest_shape (s : EngineState) (c : JsVal) :
    handleRequest s c = checkApiReady s ∨
    (truthy c = true ∧ handleRequest s c = checkApiReady { s with cookie := c }) := by
  unfold handleRequest
  rcases hc : truthy c with _ | _
  · exact Or.inl rfl
  · exact Or.inr ⟨rfl, rfl⟩

/-- `handleUltra` either leaves the state unchanged or is a `_checkApiReady`
call on the state with the identity re-recorded to some parsed value. -/
theorem handleUltra_shape (parse : String → Option JsVal) (s : EngineState)
    (body : String) :
    handleUltra parse s body = s ∨
    ∃ ud, handleUltra parse s body = checkApiReady { s with userData := ud } := by
  unfold handleUltra
  rcases getString body "user: " ",\n" with _ | _ | b | n | u | l | f
  · exact Or.inl rfl
  · exact Or.inl rfl
  · exact Or.inl rfl
  · exact Or.inl rfl
  · show (cond (truthy (JsVal.str u))
        (match parse u with
         | some ud => checkApiReady { s with userData := ud }
         | none => s) s = s) ∨
      (∃ ud, cond (truthy (JsVal.str u))
        (match parse u with
         | some ud => checkApiReady { s with userData := ud }
         | none => s) s = checkApiReady { s with userData := ud })
    rcases ht : truthy (JsVal.str u) with _ | _
    · exact Or.inl rfl
    · rcases parse u with _ | ud
      · exact Or.inl rfl
      · exact Or.inr ⟨ud, rfl⟩
  · exact Or.inl rfl
  · exact Or.inl rfl

/-- One engine step never closes an open api gate. -/
theorem stepEngine_gate_mono (parse : String → Option JsVal) (s : EngineState)
    (e : NetEvent) (h : s.api.gate = true) :
    (stepEngine parse s e).api.gate = true := by
  cases e with
  | request c =>
      show (handleRequest s c).api.gate = true
      rcases handleRequest_shape s c with hs | ⟨_, hs⟩ <;>
        rw [hs, (checkApiReady_spec _).2.2] <;> simp [h]
  | ultraResponse body =>
      show (handleUltra parse s body).api.gate = true
      rcases handleUltra_shape parse s body with hs | ⟨ud, hs⟩
      · rw [hs]; exact h
      · rw [hs, (checkApiReady_spec _).2.2]; simp [h]
  | apiCall a =>
      show (enqueue a s.api).gate = true
      rw [enqueue_gate, h]

/-- The api gate never closes along any continuation of a run. -/
theorem runEngine_gate_mono (parse : String → Option JsVal) :
    ∀ (more es : List NetEvent), (runEngine parse es).api.gate = true →
    (runEngine parse (es ++ more)).api.gate = true := by
  intro more
  induction more with
  | nil => intro es h; rw [List.append_nil]; exact h
  | cons e rest ih =>
      intro es h
      have h1 : (runEngine parse (es ++ [e])).api.gate = true := by
        show ((es ++ [e]).foldl (stepEngine parse) initEngine).api.gate = true
        rw [List.foldl_append]
        exact stepEngine_gate_mono parse _ e h
      have := ih (es ++ [e]) h1
      rwa [List.append_assoc, List.singleton_append] at this

/-- `_checkApiReady` establishes the two harvester invariants on its output:
if both recorded credentials are truthy the gate is open, and (provided the
input already related its gate to a truthy cookie) an open gate implies a
truthy cookie. -/
theorem checkApiReady_QR (s : EngineState)
    (hR : s.api.gate = true → truthy s.cookie = true) :
    ((truthy (checkApiReady s).cookie = true ∧
      truthy (checkApiReady s).userData = true) →
      (checkApiReady s).api.gate = true) ∧
    ((checkApiReady s).api.gate = true → truthy (checkApiReady s).cookie = true) := by
  obtain ⟨e1, e2, e3⟩ := checkApiReady_spec s
  rw [e1, e2, e3]
  constructor
  · intro ⟨hck, hud⟩
    simp [hck, hud]
  · intro hg
    rcases hgg : s.api.gate with _ | _
    · rw [hgg, Bool.false_or] at hg
      simp only [Bool.and_eq_true] at hg
      exact hg.1
    · exact hR hgg

/-- If both credentials are truthy then the gate is open, and an open gate
implies a truthy cookie (the engine-state invariant of the harvester). -/
theorem runEngine_inv (parse : String → Option JsVal) :
    ∀ (es : List NetEvent),
    ((truthy (runEngine parse es).cookie = true ∧
      truthy (runEngine parse es).userData = true) →
      (runEngine parse es).api.gate = true) ∧
    ((runEngine parse es).api.gate = true →
      truthy (runEngine parse es).cookie = true) := by
  have step : ∀ (s : EngineState) (e : NetEvent),
      ((truthy s.cookie = true ∧ truthy s.userData = true) → s.api.gate = true) →
      (s.api.gate = true → truthy s.cookie = true) →
      (((truthy (stepEngine parse s e).cookie = true ∧
         truthy (stepEngine parse s e).userData = true) →
         (stepEngine parse s e).api.gate = true) ∧
       ((stepEngine parse s e).api.gate = true →
         truthy (stepEngine parse s e).cookie = true)) := by
    intro s e h1 h2
    cases e with
    | request c =>
        show ((truthy (handleRequest s c).cookie = true ∧
               truthy (handleRequest s c).userData = true) →
               (handleRequest s c).api.gate = true) ∧
             ((handleRequest s c).api.gate = true →
               truthy (handleRequest s c).cookie = true)
        rcases handleRequest_shape s c with hs | ⟨hc, hs⟩
        · rw [hs]; exact checkApiReady_QR s h2
        · rw [hs]
          exact checkApiReady_QR { s with cookie := c } (fun _ => hc)
    | ultraResponse body =>
        show ((truthy (handleUltra parse s body).cookie = true ∧
               truthy (handleUltra parse s body).userData = true) →
               (handleUltra parse s body).api.gate = true) ∧
             ((handleUltra parse s body).api.gate = true →
               truthy (handleUltra parse s body).cookie = true)
        rcases handleUltra_shape parse s body with hs | ⟨ud, hs⟩
        · rw [hs]; exact ⟨h1, h2⟩
        · rw [hs]
          exact checkApiReady_QR { s with userData := ud } h2
    | apiCall a =>
        show ((truthy s.cookie = true ∧ truthy s.userData = true) →
              (enqueue a s.api).gate = true) ∧
             ((enqueue a s.api).gate = true → truthy s.cookie = true)
        constructor
        · intro hcu
          rw [enqueue_gate]
          exact h1 hcu
        · intro hgate
          rw [enqueue_gate] at hgate
          exact h2 hgate
  intro es
  induction es using List.reverseRecOn with
  | nil =>
      refine ⟨fun ⟨hck, _⟩ => ?_, fun hgate => ?_⟩
      · exact Bool.noConfusion hck
      · exact Bool.noConfusion hgate
  | append_singleton es e ih =>
      rw [runEngine_snoc]
      exact step _ e ih.1 ih.2

/-- When a step opens the (previously closed) api gate, the state right
after that step holds a truthy cookie and a truthy identity: the gate opens
only at a `_checkApiReady` call that found both credentials truthy. -/
theorem stepEngine_gate_flip (parse : String → Option JsVal) (s : EngineState)
    (e : NetEvent) (hold : s.api.gate = false)
    (hnew : (stepEngine parse s e).api.gate = true) :
    truthy (stepEngine parse s e).cookie = true ∧
    truthy (stepEngine parse s e).userData = true := by
  cases e with
  | request c =>
      have hnew' : (handleRequest s c).api.gate = true := hnew
      show truthy (handleRequest s c).cookie = true ∧
        truthy (handleRequest s c).userData = true
      rcases handleRequest_shape s c with hs | ⟨hc, hs⟩ <;>
        rw [hs] at hnew' ⊢ <;>
        obtain ⟨e1, e2, e3⟩ := checkApiReady_spec _ <;>
        rw [e3] at hnew' <;>
        rw [e1, e2] <;>
        simp only [hold] at hnew' <;>
        simp only [Bool.false_or, Bool.and_eq_true] at hnew' <;>
        exact hnew'
  | ultraResponse body =>
      have hnew' : (handleUltra parse s body).api.gate = true := hnew
      show truthy (handleUltra parse s body).cookie = true ∧
        truthy (handleUltra parse s body).userData = true
      rcases handleUltra_shape parse s body with hs | ⟨ud, hs⟩
      · rw [hs] at hnew'
        rw [hold] at hnew'
        cases hnew'
      · rw [hs] at hnew' ⊢
        obtain ⟨e1, e2, e3⟩ := checkApiReady_spec { s with userData := ud }
        rw [e3] at hnew'
        rw [e1, e2]
        simp only [hold] at hnew'
        simp only [Bool.false_or, Bool.and_eq_true] at hnew'
        exact hnew'
  | apiCall a =>
      have hnew' : (enqueue a s.api).gate = true := hnew
      rw [enqueue_gate] at hnew'
      rw [hold] at hnew'
      cases hnew'

/-- The api gate is open after a run exactly when, after some prefix of the
run, the recorded cookie and the recorded identity were both truthy. -/
theorem runEngine_gate_hist (parse : String → Option JsVal) :
    ∀ (es : List NetEvent), (runEngine parse es).api.gate = true ↔
      ∃ p rest, es = p ++ rest ∧
        truthy (runEngine parse p).cookie = true ∧
        truthy (runEngine parse p).userData = true := by
  intro es
  induction es using List.reverseRecOn with
  | nil =>
      constructor
      · intro hg; exact Bool.noConfusion hg
      · rintro ⟨p, rest, hpr, hck, _⟩
        obtain ⟨hp, -⟩ := List.append_eq_nil.mp hpr.symm
        subst hp
        exact Bool.noConfusion hck
  | append_singleton es e ih =>
      rw [runEngine_snoc]
      constructor
      · intro hg
        rcases hgold : (runEngine parse es).api.gate with _ | _
        · obtain ⟨h1, h2⟩ := stepEngine_gate_flip parse _ e hgold hg
          refine ⟨es ++ [e], [], (List.append_nil _).symm, ?_, ?_⟩ <;>
            rw [runEngine_snoc] <;> assumption
        · obtain ⟨p, rest, hpr, h1, h2⟩ := ih.mp hgold
          exact ⟨p, rest ++ [e], by rw [hpr, List.append_assoc], h1, h2⟩
      · rintro ⟨p, rest, hpr, h1, h2⟩
        rcases List.eq_nil_or_concat rest with hrest | ⟨rest', r, hrest⟩
        · subst hrest
          rw [List.append_nil] at hpr
          subst hpr
          have hg := (runEngine_inv parse (es ++ [e])).1 ⟨h1, h2⟩
          rw [runEngine_snoc] at hg
          exact hg
        · subst hrest
          rw [List.concat_eq_append, ← List.append_assoc] at hpr
          obtain ⟨hes, -⟩ := List.append_inj' hpr rfl
          exact stepEngine_gate_mono parse _ e (ih.mpr ⟨p, rest', hes, h1, h2⟩)

/-- **C4 (counterexample).** The claim's "non-null" reading is false:
`_checkApiReady` tests JavaScript *truthiness*, not non-nullness.  After a
request records a cookie and an `/ultra` response whose embedded fragment
parses to the number `0` records it as the identity, both credentials are
non-null, yet `isApiReady` stays `false`. -/
theorem C4_counterexample_nonnull_identity_gate_closed :
    (runEngine (fun _ => some (JsVal.num 0))
      [NetEvent.request (JsVal.str "BbRouter=x"),
       NetEvent.ultraResponse "user: 0,\nrest"]).cookie ≠ JsVal.null ∧
    (runEngine (fun _ => some (JsVal.num 0))
      [NetEvent.request (JsVal.str "BbRouter=x"),
       NetEvent.ultraResponse "user: 0,\nrest"]).userData ≠ JsVal.null ∧
    (runEngine (fun _ => some (JsVal.num 0))
      [NetEvent.request (JsVal.str "BbRouter=x"),
       NetEvent.ultraResponse "user: 0,\nrest"]).api.gate = false :=
  ⟨fun h => JsVal.noConfusion h, fun h => JsVal.noConfusion h, rfl⟩

/-- **C4 (amended).** The api-queue gate (`isApiReady`) is true exactly when
at some point of the run both a *truthy* cookie and a *truthy* identity were
recorded simultaneously (the recorded cookie is always a truthy — non-empty —
string, so for the cookie "truthy" coincides with "recorded non-null"; the
identity must in addition be JavaScript-truthy, not merely non-null); and the
transition is one-way: once true, no continuation of the run makes it false
again. -/
theorem C4_api_gate_iff_truthy_credentials (parse : String → Option JsVal)
    (es : List NetEvent) :
    ((runEngine parse es).api.gate = true ↔
      ∃ p rest, es = p ++ rest ∧
        truthy (runEngine parse p).cookie = true ∧
        truthy (runEngine parse p).userData = true) ∧
    (∀ more, (runEngine parse es).api.gate = true →
      (runEngine parse (es ++ more)).api.gate = true) :=
  ⟨runEngine_gate_hist parse es,
   fun more h => runEngine_gate_mono parse more es h⟩

theorem C4_api_gate_iff_truthy_credentials_witness :
    (runEngine (fun st => some (JsVal.str st))
      [NetEvent.request (JsVal.str "BbRouter=x"),
       NetEvent.ultraResponse "user: U,\nrest"]).api.gate = true ∧
    (runEngine (fun st => some (JsVal.str st))
      ([NetEvent.request (JsVal.str "BbRouter=x"),
        NetEvent.ultraResponse "user: U,\nrest"] ++
       [NetEvent.ultraResponse "no marker"])).api.gate = true := by
  have h := C4_api_gate_iff_truthy_credentials (fun st => some (JsVal.str st))
    [NetEvent.request (JsVal.str "BbRouter=x"),
     NetEvent.ultraResponse "user: U,\nrest"]
  have h1 := h.1.mpr ⟨[NetEvent.request (JsVal.str "BbRouter=x"),
     NetEvent.ultraResponse "user: U,\nrest"], [],
    (List.append_nil _).symm, rfl, rfl⟩
  exact ⟨h1, h.2 [NetEvent.ultraResponse "no marker"] h1⟩

/-! ## The log notification payload (`_log`)

```js
_log(level, message) {
    this.emit('log', { date: Date.now(), level, message });
}
```
-/

/-- The object `_log` emits on the `log` channel: `Date.now()` (epoch
milliseconds) under the key `date`, then the level and the message. -/
def logPayload (date : Int) (level message : String) : JsVal :=
  .obj [("date", .num date), ("level", .str level), ("message", .str message)]

/-- The drain loop only ever appends ERROR log events. -/
theorem drainLoop_logs :
    ∀ (n : Nat) (s : QueueState), Action.sizeList s.queue ≤ n →
    ∀ p ∈ (drainLoop s).logs, p ∈ s.logs ∨ p.1 = "ERROR" := by
  intro n
  induction n with
  | zero =>
      intro s hn p hp
      match hq : s.queue with
      | [] =>
          rw [drainLoop_eq_nil s hq] at hp
          exact Or.inl hp
      | a :: rest =>
          rw [hq, Action.sizeList_cons, Action.size_eq] at hn
          omega
  | succ n ih =>
      intro s hn p hp
      match hq : s.queue with
      | [] =>
          rw [drainLoop_eq_nil s hq] at hp
          exact Or.inl hp
      | a :: rest =>
          rw [drainLoop_eq_cons s a rest hq] at hp
          rw [hq, Action.sizeList_cons, Action.size_eq] at hn
          have hn' : Action.sizeList (rest ++ a.spawns) ≤ n := by
            rw [Action.sizeList_append]; omega
          rcases ih { s with
              queue := rest ++ a.spawns,
              executed := s.executed ++ [a.id],
              logs := s.logs ++
                (if a.fails then [("ERROR", s.label ++ " failed: " ++ a.emsg)] else []) }
            hn' p hp with hmem | herr
          · rcases List.mem_append.mp hmem with hmem' | hmem'
            · exact Or.inl hmem'
            · right
              rcases ha : a.fails with _ | _
              · rw [ha] at hmem'
                exact absurd hmem' (List.not_mem_nil p)
              · rw [ha] at hmem'
                rw [List.mem_singleton.mp hmem']
          · exact Or.inr herr

theorem tryDrain_logs (s : QueueState) (p : String × String)
    (hp : p ∈ (tryDrain s).logs) : p ∈ s.logs ∨ p.1 = "ERROR" := by
  unfold tryDrain at hp
  split at hp
  · exact Or.inl hp
  · exact drainLoop_logs (Action.sizeList
      ({ s with draining := true } : QueueState).queue)
      { s with draining := true } (Nat.le_refl _) p hp

theorem openGate_logs (msg : String) (s : QueueState) (p : String × String)
    (hp : p ∈ (openGate msg s).logs) :
    p ∈ s.logs ∨ p.1 = "INFO" ∨ p.1 = "ERROR" := by
  unfold openGate at hp
  rcases tryDrain_logs _ p hp with hmem | herr
  · rcases List.mem_append.mp hmem with h1 | h1
    · exact Or.inl h1
    · rw [List.mem_singleton.mp h1]
      exact Or.inr (Or.inl rfl)
  · exact Or.inr (Or.inr herr)

theorem enqueue_logs (a : Action) (s : QueueState) (p : String × String)
    (hp : p ∈ (enqueue a s).logs) : p ∈ s.logs ∨ p.1 = "ERROR" :=
  tryDrain_logs { s with queue := s.queue ++ [a] } p hp

theorem checkApiReady_logs (s : EngineState) (p : String × String)
    (hp : p ∈ (checkApiReady s).api.logs) :
    p ∈ s.api.logs ∨ p.1 = "INFO" ∨ p.1 = "ERROR" := by
  unfold checkApiReady at hp
  split at hp
  · exact Or.inl hp
  · split at hp
    · exact openGate_logs _ _ p hp
    · exact Or.inl hp

/-- Every log event the modelled engine run emits on the api queue carries
level INFO or ERROR. -/
theorem runEngine_logs (parse : String → Option JsVal) :
    ∀ (es : List NetEvent) (p : String × String),
    p ∈ (runEngine parse es).api.logs → p.1 = "INFO" ∨ p.1 = "ERROR" := by
  have step : ∀ (s : EngineState) (e : NetEvent) (p : String × String),
      p ∈ (stepEngine parse s e).api.logs → p ∈ s.api.logs ∨
        p.1 = "INFO" ∨ p.1 = "ERROR" := by
    intro s e p hp
    cases e with
    | request c =>
        have hp' : p ∈ (handleRequest s c).api.logs := hp
        rcases handleRequest_shape s c with hs | ⟨_, hs⟩
        · rw [hs] at hp'
          exact checkApiReady_logs s p hp'
        · rw [hs] at hp'
          rcases checkApiReady_logs { s with cookie := c } p hp' with h1 | h1
          · exact Or.inl h1
          · exact Or.inr h1
    | ultraResponse body =>
        have hp' : p ∈ (handleUltra parse s body).api.logs := hp
        rcases handleUltra_shape parse s body with hs | ⟨ud, hs⟩
        · rw [hs] at hp'
          exact Or.inl hp'
        · rw [hs] at hp'
          rcases checkApiReady_logs { s with userData := ud } p hp' with h1 | h1
          · exact Or.inl h1
          · exact Or.inr h1
    | apiCall a =>
        have hp' : p ∈ (enqueue a s.api).logs := hp
        rcases enqueue_logs a s.api p hp' with h1 | h1
        · exact Or.inl h1
        · exact Or.inr (Or.inr h1)
  intro es
  induction es using List.reverseRecOn with
  | nil =>
      intro p hp
      exact absurd hp (List.not_mem_nil p)
  | append_singleton es e ih =>
      intro p hp
      rw [runEngine_snoc] at hp
      rcases step _ e p hp with h1 | h1
      · exact ih p h1
      · exact h1

/-- **C6 (counterexample).** The payload of a `log` event does not have the
claimed `{timestamp, level, message}` shape: the epoch-milliseconds value is
stored under the key `date`, and no `timestamp` key exists. -/
theorem C6_counterexample_payload_key_is_date :
    jsKeys (logPayload 0 "INFO" "Engine initialization started.") =
      ["date", "level", "message"] ∧
    "timestamp" ∉ jsKeys (logPayload 0 "INFO" "Engine initialization started.") :=
  ⟨rfl, by decide⟩

/-- **C6 (amended).** Every log notification emitted by the engine carries a
payload of shape `{date: epoch-ms, level, message}` — the key is `date`, not
`timestamp` — where `message` is a string and the level is one of INFO,
DEBUG, WARN, ERROR (the modelled engine runs emit only INFO and ERROR). -/
theorem C6_log_payload_shape :
    (∀ (d : Int) (lv m : String),
      jsKeys (logPayload d lv m) = ["date", "level", "message"] ∧
      propOf (logPayload d lv m) "date" = JsVal.num d ∧
      propOf (logPayload d lv m) "level" = JsVal.str lv ∧
      propOf (logPayload d lv m) "message" = JsVal.str m) ∧
    (∀ (parse : String → Option JsVal) (es : List NetEvent) (p : String × String),
      p ∈ (runEngine parse es).api.logs →
      p.1 ∈ (["INFO", "DEBUG", "WARN", "ERROR"] : List String)) := by
  constructor
  · intro d lv m
    exact ⟨rfl, rfl, rfl, rfl⟩
  · intro parse es p hp
    rcases runEngine_logs parse es p hp with h | h <;> rw [h] <;> decide

theorem C6_log_payload_shape_witness :
    jsKeys (logPayload 1700000000000 "ERROR" "API action failed: x") =
      ["date", "level", "message"] ∧
    ("INFO", "API credentials acquired. API queue is now ready.").1 ∈
      (["INFO", "DEBUG", "WARN", "ERROR"] : List String) := by
  constructor
  · exact (C6_log_payload_shape.1 1700000000000 "ERROR" "API action failed: x").1
  · have hlog : (runEngine (fun st => some (JsVal.str st))
        [NetEvent.request (JsVal.str "BbRouter=x"),
         NetEvent.ultraResponse "user: U,\nrest"]).api.logs =
        [("INFO", "API credentials acquired. API queue is now ready.")] := by
      show (openGate "API credentials acquired. API queue is now ready."
        (initQueue "API action")).logs = _
      rw [openGate_no_spawn _ _ rfl (fun a ha => absurd ha (List.not_mem_nil a))]
      rfl
    exact C6_log_payload_shape.2 (fun st => some (JsVal.str st))
      [NetEvent.request (JsVal.str "BbRouter=x"),
       NetEvent.ultraResponse "user: U,\nrest"]
      ("INFO", "API credentials acquired. API queue is now ready.")
      (by rw [hlog]; exact List.mem_singleton.mpr rfl)

/-! ## The response transformers (`src/utils/getCourses.js`,
`src/utils/getAssignments.js`)

Both transformers run without any `try`/`catch`, so a JavaScript `TypeError`
(property read on `null`/`undefined`, `.filter` on a non-array, `for…of` over
a non-iterable) propagates to the caller: the embedding returns
`Except.error "TypeError"` there. -/

/-- `Array.isArray`. -/
def isArray : JsVal → Bool
  | .arr _ => true
  | _ => false

/-- `Array.prototype.filter` with a possibly-throwing callback, evaluated
left to right. -/
def filterE (p : JsVal → Except String Bool) : List JsVal → Except String (List JsVal)
  | [] => .ok []
  | x :: xs => do
      let b ← p x
      let rest ← filterE p xs
      pure (if b then x :: rest else rest)

/-- `Array.prototype.map` with a possibly-throwing callback, evaluated left
to right. -/
def mapE {β : Type} (f : JsVal → Except String β) :
    List JsVal → Except String (List β)
  | [] => .ok []
  | x :: xs => do
      let y ← f x
      let rest ← mapE f xs
      pure (y :: rest)

theorem exBind_ok {α β : Type} (a : α) (f : α → Except String β) :
    (Except.ok a >>= f) = f a := rfl

theorem exBind_error {α β : Type} (e : String) (f : α → Except String β) :
    ((Except.error e : Except String α) >>= f) = Except.error e := rfl

theorem exBind_pure {α β : Type} (a : α) (f : α → Except String β) :
    ((pure a : Except String α) >>= f) = f a := rfl

/-- The record `getCoursesAsJson` builds per kept enrollment. -/
structure CourseRec where
  courseId : JsVal
  courseName : JsVal
  id : JsVal

/-- The object `getCoursesAsJson` returns: `{ courses: [...] }`. -/
structure CoursesJson where
  courses : List CourseRec

/-- `src/utils/getCourses.js` (`getCoursesAsJson`): guard
`!coursesDataObject || !Array.isArray(coursesDataObject.results)` returns
`{courses: []}`; otherwise filter
`enrollment.course && !enrollment.course.isOrganization` (a property read on
a `null`/`undefined` enrollment throws) and map each kept enrollment to
`{courseId, courseName: name, id}`. -/
def getCoursesAsJson (coursesDataObject : JsVal) : Except String CoursesJson :=
  if truthy coursesDataObject = false then .ok ⟨[]⟩
  else
    match propOf coursesDataObject "results" with
    | .arr results => do
        let kept ← filterE (fun enrollment => do
            let course ← getProp enrollment "course"
            if truthy course then do
              let isOrg ← getProp course "isOrganization"
              pure (!truthy isOrg)
            else
              pure false) results
        let courses ← mapE (fun enrollment => do
            let courseDetails ← getProp enrollment "course"
            let cid ← getProp courseDetails "courseId"
            let cname ← getProp courseDetails "name"
            let internal ← getProp courseDetails "id"
            pure (CourseRec.mk cid cname internal)) kept
        pure ⟨courses⟩
    | _ => .ok ⟨[]⟩

/-- Modelled from the amended claim's words: an enrollment is kept when its
`course` property is truthy and that value's `isOrganization` property is
falsy. -/
def keepEnrollment (enrollment : JsVal) : Bool :=
  truthy (propOf enrollment "course") &&
    !truthy (propOf (propOf enrollment "course") "isOrganization")

/-- Modelled from the amended claim's words: the simplified course record of
a kept enrollment. -/
def courseRecOf (enrollment : JsVal) : CourseRec :=
  ⟨propOf (propOf enrollment "course") "courseId",
   propOf (propOf enrollment "course") "name",
   propOf (propOf enrollment "course") "id"⟩

/-- Modelled from the amended claim's words: keep the non-organization
enrollments, in order, and project each to its course record. -/
def coursesSpec (results : List JsVal) : List CourseRec :=
  (results.filter keepEnrollment).map courseRecOf

theorem getProp_ok (v : JsVal) (k : String) (h1 : v ≠ .null) (h2 : v ≠ .undef) :
    getProp v k = .ok (propOf v k) := by
  cases v <;> first | exact absurd rfl h1 | exact absurd rfl h2 | rfl

theorem truthy_ne_null {v : JsVal} (h : truthy v = true) : v ≠ .null := by
  intro hh; rw [hh] at h; exact Bool.noConfusion h

theorem truthy_ne_undef {v : JsVal} (h : truthy v = true) : v ≠ .undef := by
  intro hh; rw [hh] at h; exact Bool.noConfusion h

theorem filterE_courses (results : List JsVal)
    (h : ∀ e ∈ results, e ≠ .null ∧ e ≠ .undef) :
    filterE (fun enrollment => do
        let course ← getProp enrollment "course"
        if truthy course then do
          let isOrg ← getProp course "isOrganization"
          pure (!truthy isOrg)
        else
          pure false) results = .ok (results.filter keepEnrollment) := by
  induction results with
  | nil => rfl
  | cons e rest ih =>
      obtain ⟨hn, hu⟩ := h e (by simp)
      have hpred : (do
          let course ← getProp e "course"
          if truthy course then do
            let isOrg ← getProp course "isOrganization"
            pure (!truthy isOrg)
          else
            pure false : Except String Bool) = .ok (keepEnrollment e) := by
        rw [getProp_ok e "course" hn hu, exBind_ok]
        rcases ht : truthy (propOf e "course") with _ | _
        · rw [if_neg Bool.false_ne_true]
          unfold keepEnrollment
          rw [ht]
          rfl
        · rw [if_pos rfl,
            getProp_ok _ "isOrganization" (truthy_ne_null ht) (truthy_ne_undef ht),
            exBind_ok]
          unfold keepEnrollment
          rw [ht]
          rfl
      show (do
          let b ← (do
            let course ← getProp e "course"
            if truthy course then do
              let isOrg ← getProp course "isOrganization"
              pure (!truthy isOrg)
            else
              pure false : Except String Bool)
          let rest' ← filterE _ rest
          pure (if b then e :: rest' else rest')) = _
      rw [hpred, exBind_ok, ih (fun x hx => h x (by simp [hx])), exBind_ok]
      rw [List.filter_cons]
      rfl

theorem mapE_courses (kept : List JsVal)
    (h : ∀ e ∈ kept, e ≠ .null ∧ e ≠ .undef ∧ truthy (propOf e "course") = true) :
    mapE (fun enrollment => do
        let courseDetails ← getProp enrollment "course"
        let cid ← getProp courseDetails "courseId"
        let cname ← getProp courseDetails "name"
        let internal ← getProp courseDetails "id"
        pure (CourseRec.mk cid cname internal)) kept =
      .ok (kept.map courseRecOf) := by
  induction kept with
  | nil => rfl
  | cons e rest ih =>
      obtain ⟨hn, hu, ht⟩ := h e (by simp)
      show (do
          let y ← (do
            let courseDetails ← getProp e "course"
            let cid ← getProp courseDetails "courseId"
            let cname ← getProp courseDetails "name"
            let internal ← getProp courseDetails "id"
            pure (CourseRec.mk cid cname internal) : Except String CourseRec)
          let rest' ← mapE _ rest
          pure (y :: rest')) = _
      rw [getProp_ok e "course" hn hu, exBind_ok,
        getProp_ok _ "courseId" (truthy_ne_null ht) (truthy_ne_undef ht), exBind_ok,
        getProp_ok _ "name" (truthy_ne_null ht) (truthy_ne_undef ht), exBind_ok,
        getProp_ok _ "id" (truthy_ne_null ht) (truthy_ne_undef ht), exBind_ok,
        exBind_pure, ih (fun x hx => h x (by simp [hx])), exBind_ok]
      rfl

/-- **C7 (counterexample).** The claim's "otherwise it keeps exactly the
enrollment records having a course sub-object…" is not total: a `null`
element in `results` makes the filter read `.course` on `null`, which throws
a `TypeError` instead of excluding the record. -/
theorem C7_counterexample_null_enrollment_throws :
    getCoursesAsJson (.obj [("results", .arr [.null])]) = .error "TypeError" ∧
    getCoursesAsJson (.obj [("results", .arr [.null])]) ≠ .ok ⟨[]⟩ := by
  refine ⟨rfl, fun h => ?_⟩
  rw [show getCoursesAsJson (.obj [("results", .arr [.null])]) =
    .error "TypeError" from rfl] at h
  exact Except.noConfusion h

/-- **C7 (amended).** A falsy input, or an input whose `results` property is
not an array, yields `{courses: []}` without throwing.  When `results` is an
array none of whose elements is `null`/`undefined`, the transformer returns
exactly the enrollments whose `course` property is truthy and whose
`course.isOrganization` is falsy, each mapped to
`{courseId: course.courseId, courseName: course.name, id: course.id}`, in
order.  (On a `null`/`undefined` element it throws instead.)  The claim's
concrete example holds: the organization record is excluded. -/
theorem C7_courses_transform (v : JsVal) (results : List JsVal) :
    (truthy v = false → getCoursesAsJson v = .ok ⟨[]⟩) ∧
    (isArray (propOf v "results") = false → getCoursesAsJson v = .ok ⟨[]⟩) ∧
    (truthy v = true → propOf v "results" = .arr results →
      (∀ e ∈ results, e ≠ .null ∧ e ≠ .undef) →
      getCoursesAsJson v = .ok ⟨coursesSpec results⟩) ∧
    getCoursesAsJson (.obj [("results", .arr [
        .obj [("course", .obj [("courseId", .str "A-1"), ("name", .str "Intro"),
          ("id", .str "_1_1"), ("isOrganization", .bool false)])],
        .obj [("course", .obj [("isOrganization", .bool true)])]])]) =
      .ok ⟨[⟨.str "A-1", .str "Intro", .str "_1_1"⟩]⟩ := by
  refine ⟨?_, ?_, ?_, rfl⟩
  · intro hv
    unfold getCoursesAsJson
    rw [if_pos hv]
  · intro hres
    unfold getCoursesAsJson
    by_cases hv : truthy v = false
    · rw [if_pos hv]
    · rw [if_neg hv]
      rcases hr : propOf v "results" with _ | _ | b | n | u | l | f
      all_goals try rfl
      rw [hr] at hres
      exact Bool.noConfusion hres
  · intro hv hres hnn
    have harr : getCoursesAsJson v = (do
        let kept ← filterE (fun enrollment => do
            let course ← getProp enrollment "course"
            if truthy course then do
              let isOrg ← getProp course "isOrganization"
              pure (!truthy isOrg)
            else
              pure false) results
        let courses ← mapE (fun enrollment => do
            let courseDetails ← getProp enrollment "course"
            let cid ← getProp courseDetails "courseId"
            let cname ← getProp courseDetails "name"
            let internal ← getProp courseDetails "id"
            pure (CourseRec.mk cid cname internal)) kept
        pure ⟨courses⟩) := by
      unfold getCoursesAsJson
      rw [if_neg (by simp [hv]), hres]
    rw [harr]
    rw [filterE_courses results hnn, exBind_ok]
    rw [mapE_courses (results.filter keepEnrollment) (fun e he => by
      obtain ⟨hmem, hkeep⟩ := List.mem_filter.mp he
      obtain ⟨hn, hu⟩ := hnn e hmem
      refine ⟨hn, hu, ?_⟩
      unfold keepEnrollment at hkeep
      simp only [Bool.and_eq_true] at hkeep
      exact hkeep.1), exBind_ok]
    rfl

theorem C7_courses_transform_witness :
    (truthy (JsVal.obj [("results", JsVal.arr [
        .obj [("course", .obj [("courseId", .str "A-1"), ("name", .str "Intro"),
          ("id", .str "_1_1"), ("isOrganization", .bool false)])],
        .obj [("course", .obj [("isOrganization", .bool true)])]])]) = true) ∧
    getCoursesAsJson (.obj [("results", .arr [
        .obj [("course", .obj [("courseId", .str "A-1"), ("name", .str "Intro"),
          ("id", .str "_1_1"), ("isOrganization", .bool false)])],
        .obj [("course", .obj [("isOrganization", .bool true)])]])]) =
      .ok ⟨coursesSpec [
        .obj [("course", .obj [("courseId", .str "A-1"), ("name", .str "Intro"),
          ("id", .str "_1_1"), ("isOrganization", .bool false)])],
        .obj [("course", .obj [("isOrganization", .bool true)])]]⟩ := by
  have hnn : ∀ e ∈ [
      JsVal.obj [("course", JsVal.obj [("courseId", JsVal.str "A-1"),
        ("name", JsVal.str "Intro"), ("id", JsVal.str "_1_1"),
        ("isOrganization", JsVal.bool false)])],
      JsVal.obj [("course", JsVal.obj [("isOrganization", JsVal.bool true)])]],
      e ≠ JsVal.null ∧ e ≠ JsVal.undef := by
    intro e he
    rcases List.mem_cons.mp he with hh | hh
    · subst hh
      exact ⟨fun h => JsVal.noConfusion h, fun h => JsVal.noConfusion h⟩
    · have hh' := List.mem_singleton.mp hh
      subst hh'
      exact ⟨fun h => JsVal.noConfusion h, fun h => JsVal.noConfusion h⟩
  obtain ⟨-, -, h3, -⟩ := C7_courses_transform (.obj [("results", .arr [
      .obj [("course", .obj [("courseId", .str "A-1"), ("name", .str "Intro"),
        ("id", .str "_1_1"), ("isOrganization", .bool false)])],
      .obj [("course", .obj [("isOrganization", .bool true)])]])]) [
      .obj [("course", .obj [("courseId", .str "A-1"), ("name", .str "Intro"),
        ("id", .str "_1_1"), ("isOrganization", .bool false)])],
      .obj [("course", .obj [("isOrganization", .bool true)])]]
  exact ⟨rfl, h3 rfl rfl hnn⟩

/-! ### The activity transformer (`src/utils/getAssignments.js`) -/

mutual

/-- JavaScript string coercion `${v}` (template literal), as used to build
the de-duplication key: `String(null) = "null"`, `String(undefined) =
"undefined"`, numbers in decimal, arrays joined by `","` with `null` and
`undefined` elements rendered empty, plain objects as `"[object Object]"`. -/
def jsToString : JsVal → String
  | .null => "null"
  | .undef => "undefined"
  | .bool true => "true"
  | .bool false => "false"
  | .num n => toString n
  | .str s => s
  | .arr l => jsToStringArr l
  | .obj _ => "[object Object]"

def jsToStringArr : List JsVal → String
  | [] => ""
  | [v] =>
      match v with
      | .null => ""
      | .undef => ""
      | v' => jsToString v'
  | v :: rest =>
      (match v with
       | .null => ""
       | .undef => ""
       | v' => jsToString v') ++ "," ++ jsToStringArr rest

end

/-- The record the activity transformer builds per kept stream entry. -/
structure Activity where
  activityName : JsVal
  courseName : JsVal
  type : JsVal
  dueDate : JsVal
  givenDate : JsVal

/-- The object `getActivitiesAsJson` returns: `{ activities: [...] }`. -/
structure ActivitiesJson where
  activities : List Activity

/-- `Map.prototype.set` on a map with `JsVal` keys (`courseMap`): replace
the value at an existing key in place, else append the new binding. -/
def mapSet (m : List (JsVal × JsVal)) (k v : JsVal) : List (JsVal × JsVal) :=
  match m with
  | [] => [(k, v)]
  | (k', v') :: rest =>
      if jsEq k' k then (k', v) :: rest else (k', v') :: mapSet rest k v

/-- `Map.prototype.get` on a map with `JsVal` keys: `undefined` when the key
is absent. -/
def mapGet (m : List (JsVal × JsVal)) (k : JsVal) : JsVal :=
  match m with
  | [] => .undef
  | (k', v') :: rest => if jsEq k' k then v' else mapGet rest k

/-- `for…of` iteration: arrays yield their elements, strings their
characters; anything else throws (`not iterable`). -/
def iterElems : JsVal → Except String (List JsVal)
  | .arr l => .ok l
  | .str s => .ok (s.data.map (fun c => .str (String.mk [c])))
  | _ => .error "TypeError"

/-- The `for (const course of …sx_courses) courseMap.set(course.id,
course.name)` loop. -/
def buildCourseMap : List JsVal → List (JsVal × JsVal) →
    Except String (List (JsVal × JsVal))
  | [], m => .ok m
  | course :: rest, m => do
      let cid ← getProp course "id"
      let cname ← getProp course "name"
      buildCourseMap rest (mapSet m cid cname)

/-- The optional chain `x?.notificationDetails?.sourceType`. -/
def sourceTypeOf (isd : JsVal) : JsVal :=
  match isd with
  | .null => .undef
  | .undef => .undef
  | _ =>
      match propOf isd "notificationDetails" with
      | .null => .undef
      | .undef => .undef
      | nd => propOf nd "sourceType"

/-- The `map` callback of the transformer: build the simplified activity
record, substituting `'Untitled Activity'` for a falsy title,
`'Unknown Course'` for a falsy course-map result, and `null` for falsy
due/start dates. -/
def mapEntryF (courseMap : List (JsVal × JsVal)) (entry : JsVal) :
    Except String Activity := do
  let details ← getProp entry "itemSpecificData"
  let notificationDetails ← getProp details "notificationDetails"
  let title ← getProp details "title"
  let seCourseId ← getProp entry "se_courseId"
  let sourceType ← getProp notificationDetails "sourceType"
  let dueDate ← getProp notificationDetails "dueDate"
  let startDate ← getProp notificationDetails "startDate"
  pure { activityName := if truthy title then title else .str "Untitled Activity",
         courseName :=
           (fun c => if truthy c then c else JsVal.str "Unknown Course")
             (mapGet courseMap seCourseId),
         type := if jsEqStr sourceType "UA" then .str "Assignment" else .str "Test",
         dueDate := if truthy dueDate then dueDate else .null,
         givenDate := if truthy startDate then startDate else .null }

/-- The de-duplication key `` `${act.activityName}-${act.courseName}` ``. -/
def actKey (a : Activity) : String :=
  jsToString a.activityName ++ "-" ++ jsToString a.courseName

/-- `Map.prototype.set` with string keys (the de-duplication map). -/
def mapSetStr (m : List (String × Activity)) (k : String) (v : Activity) :
    List (String × Activity) :=
  match m with
  | [] => [(k, v)]
  | (k', v') :: rest =>
      if k' == k then (k', v) :: rest else (k', v') :: mapSetStr rest k v

/-- `new Map(allActivities.map(act => [key, act]))`: insert the key/record
pairs left to right. -/
def buildActMap : List Activity → List (String × Activity) →
    List (String × Activity)
  | [], m => m
  | a :: rest, m => buildActMap rest (mapSetStr m (actKey a) a)

/-- `Array.from(new Map(…).values())`: one surviving record per key, in
first-insertion key order, each the last-written value for its key. -/
def dedup (acts : List Activity) : List Activity :=
  (buildActMap acts []).map Prod.snd

/-- The `if (…sx_courses) { for (const course of …) courseMap.set(…) }`
block: build the course lookup from a truthy `sx_courses`, else leave the
map empty. -/
def courseMapOf (sx : JsVal) : Except String (List (JsVal × JsVal)) :=
  if truthy sx then do
    let cs ← iterElems sx
    buildCourseMap cs []
  else pure []

/-- `src/utils/getAssignments.js` (`getActivitiesAsJson`): guard
`!obj || !obj.sv_streamEntries || !obj.sv_extras` returns `{activities: []}`;
build the course lookup from `sv_extras.sx_courses` when truthy; keep the
`bb-nautilus` entries whose optional-chained source type is `'UA'` or
`'TE'`; map them to simplified records; de-duplicate by
activity-name/course-name key.  `.filter` on a non-array `sv_streamEntries`
throws. -/
def getActivitiesAsJson (streamDataObject : JsVal) : Except String ActivitiesJson :=
  if truthy streamDataObject = false then .ok ⟨[]⟩
  else if truthy (propOf streamDataObject "sv_streamEntries") = false then .ok ⟨[]⟩
  else if truthy (propOf streamDataObject "sv_extras") = false then .ok ⟨[]⟩
  else do
    let courseMap ← courseMapOf
      (propOf (propOf streamDataObject "sv_extras") "sx_courses")
    match propOf streamDataObject "sv_streamEntries" with
    | .arr entries => do
        let l1 ← filterE (fun entry => do
            let pid ← getProp entry "providerId"
            pure (jsEqStr pid "bb-nautilus")) entries
        let l2 ← filterE (fun entry => do
            let isd ← getProp entry "itemSpecificData"
            pure (jsEqStr (sourceTypeOf isd) "UA" ||
              jsEqStr (sourceTypeOf isd) "TE")) l1
        let allActivities ← mapE (mapEntryF courseMap) l2
        pure ⟨dedup allActivities⟩
    | _ => .error "TypeError"

/-- **C8 (counterexample).** The transformer does throw on some inputs: the
guard only tests truthiness, so `{sv_streamEntries: 1, sv_extras: 1}` passes
it and `.filter` is then called on the number `1`, a `TypeError` — not the
claimed `{activities: []}`. -/
theorem C8_counterexample_nonarray_entries_throw :
    getActivitiesAsJson
      (.obj [("sv_streamEntries", .num 1), ("sv_extras", .num 1)]) =
        .error "TypeError" ∧
    getActivitiesAsJson
      (.obj [("sv_streamEntries", .num 1), ("sv_extras", .num 1)]) ≠
        .ok ⟨[]⟩ := by
  refine ⟨rfl, fun h => ?_⟩
  rw [show getActivitiesAsJson
      (.obj [("sv_streamEntries", .num 1), ("sv_extras", .num 1)]) =
        .error "TypeError" from rfl] at h
  exact Except.noConfusion h

/-- **C8 (amended).** Inputs failing the top-level guard — a falsy input, or
a falsy `sv_streamEntries`, or a falsy `sv_extras` — yield `{activities: []}`
without throwing.  Inputs that pass the guard may still throw: a truthy
non-array `sv_streamEntries` raises a `TypeError` (the \"throws on no input
whatsoever\" part of the claim is false). -/
theorem C8_guard_returns_empty (v : JsVal) :
    (truthy v = false ∨ truthy (propOf v "sv_streamEntries") = false ∨
        truthy (propOf v "sv_extras") = false →
      getActivitiesAsJson v = .ok ⟨[]⟩) ∧
    getActivitiesAsJson
      (.obj [("sv_streamEntries", .num 1), ("sv_extras", .num 1)]) =
        .error "TypeError" := by
  refine ⟨fun h => ?_, rfl⟩
  unfold getActivitiesAsJson
  rcases h with h | h | h
  · rw [if_pos h]
  · by_cases h0 : truthy v = false
    · rw [if_pos h0]
    · rw [if_neg h0, if_pos h]
  · by_cases h0 : truthy v = false
    · rw [if_pos h0]
    · rw [if_neg h0]
      by_cases h1 : truthy (propOf v "sv_streamEntries") = false
      · rw [if_pos h1]
      · rw [if_neg h1, if_pos h]

theorem C8_guard_returns_empty_witness :
    (truthy JsVal.null = false ∨
      truthy (propOf JsVal.null "sv_streamEntries") = false ∨
      truthy (propOf JsVal.null "sv_extras") = false) ∧
    getActivitiesAsJson JsVal.null = .ok ⟨[]⟩ :=
  ⟨Or.inl rfl, (C8_guard_returns_empty JsVal.null).1 (Or.inl rfl)⟩

/-! ### De-duplication properties (for C9) -/

/-- The last element of the list whose de-duplication key is `k`. -/
def lastWithKey (k : String) : List Activity → Option Activity
  | [] => none
  | a :: rest =>
      match lastWithKey k rest with
      | some b => some b
      | none => if actKey a == k then some a else none

theorem lastWithKey_eq_find_reverse (k : String) :
    ∀ (acts : List Activity),
    lastWithKey k acts = acts.reverse.find? (fun a => actKey a == k) := by
  intro acts
  induction acts with
  | nil => rfl
  | cons a rest ih =>
      show (match lastWithKey k rest with
            | some b => some b
            | none => if actKey a == k then some a else none) =
        ((a :: rest).reverse.find? fun x => actKey x == k)
      rw [List.reverse_cons, List.find?_append, ← ih]
      rcases lastWithKey k rest with _ | b
      · rw [Option.none_or]
        rcases hk : actKey a == k with _ | _ <;>
          simp [List.find?_cons, hk]
      · rw [Option.or_some]

theorem mapSetStr_lookup_self (k : String) (v : Activity) :
    ∀ (m : List (String × Activity)), (mapSetStr m k v).lookup k = some v := by
  intro m
  induction m with
  | nil =>
      show ([(k, v)] : List (String × Activity)).lookup k = some v
      rw [List.lookup_cons, beq_self_eq_true]
  | cons p rest ih =>
      obtain ⟨k', v'⟩ := p
      show (if k' == k then (k', v) :: rest
            else (k', v') :: mapSetStr rest k v).lookup k = some v
      by_cases hk : (k' == k) = true
      · rw [if_pos hk]
        have hkeq : k' = k := by simpa using hk
        subst hkeq
        rw [List.lookup_cons, beq_self_eq_true]
      · rw [if_neg hk, List.lookup_cons]
        have hk2 : (k == k') = false := by
          rcases hkk : k == k' with _ | _
          · rfl
          · have hke : k = k' := by simpa using hkk
            subst hke
            simp at hk
        rw [hk2]
        exact ih

theorem mapSetStr_lookup_ne (k k' : String) (v : Activity) (hne : (k' == k) = false) :
    ∀ (m : List (String × Activity)),
    (mapSetStr m k v).lookup k' = m.lookup k' := by
  intro m
  induction m with
  | nil =>
      show ([(k, v)] : List (String × Activity)).lookup k' =
        ([] : List (String × Activity)).lookup k'
      rw [List.lookup_cons, hne]
  | cons p rest ih =>
      obtain ⟨k₀, v₀⟩ := p
      show (if k₀ == k then (k₀, v) :: rest
            else (k₀, v₀) :: mapSetStr rest k v).lookup k' =
        ((k₀, v₀) :: rest).lookup k'
      by_cases hk : (k₀ == k) = true
      · rw [if_pos hk]
        have hkeq : k₀ = k := by simpa using hk
        subst hkeq
        rw [List.lookup_cons, List.lookup_cons, hne]
      · rw [if_neg hk, List.lookup_cons, List.lookup_cons]
        rcases hkk : k' == k₀ with _ | _
        · exact ih
        · rfl

theorem buildActMap_lookup (k : String) :
    ∀ (acts : List Activity) (m : List (String × Activity)),
    (buildActMap acts m).lookup k =
      match lastWithKey k acts with
      | some a => some a
      | none => m.lookup k := by
  intro acts
  induction acts with
  | nil => intro m; rfl
  | cons a rest ih =>
      intro m
      show (buildActMap rest (mapSetStr m (actKey a) a)).lookup k = _
      rw [ih (mapSetStr m (actKey a) a)]
      show _ = (match (match lastWithKey k rest with
        | some b => some b
        | none => if actKey a == k then some a else none) with
        | some b => some b
        | none => m.lookup k)
      rcases lastWithKey k rest with _ | b
      · show (mapSetStr m (actKey a) a).lookup k =
          (match (if actKey a == k then some a else none) with
           | some b => some b
           | none => m.lookup k)
        by_cases hk : (actKey a == k) = true
        · rw [if_pos hk]
          have : actKey a = k := by simpa using hk
          subst this
          exact mapSetStr_lookup_self (actKey a) a m
        · rw [if_neg hk]
          have hk' : (k == actKey a) = false := by
            rcases hkk : k == actKey a with _ | _
            · rfl
            · have : k = actKey a := by simpa using hkk
              subst this
              simp at hk
          exact mapSetStr_lookup_ne (actKey a) k a hk' m
      · rfl

theorem mapSetStr_nil (k : String) (v : Activity) :
    mapSetStr [] k v = [(k, v)] := rfl

theorem mapSetStr_cons (k' : String) (v' : Activity)
    (rest : List (String × Activity)) (k : String) (v : Activity) :
    mapSetStr ((k', v') :: rest) k v =
      if k' == k then (k', v) :: rest
      else (k', v') :: mapSetStr rest k v := rfl

/-- Insertions store each record under its own key. -/
theorem mapSetStr_keyInv (a : Activity) :
    ∀ (m : List (String × Activity)), (∀ p ∈ m, actKey p.2 = p.1) →
    ∀ p ∈ mapSetStr m (actKey a) a, actKey p.2 = p.1 := by
  intro m
  induction m with
  | nil =>
      intro _ p hp
      rw [mapSetStr_nil] at hp
      rw [List.mem_singleton.mp hp]
  | cons q rest ih =>
      obtain ⟨k', v'⟩ := q
      intro hm p hp
      rw [mapSetStr_cons] at hp
      by_cases hk : (k' == actKey a) = true
      · rw [if_pos hk] at hp
        rcases List.mem_cons.mp hp with hh | hh
        · subst hh
          show actKey a = k'
          have hke : k' = actKey a := by simpa using hk
          rw [hke]
        · exact hm p (by simp [hh])
      · rw [if_neg hk] at hp
        rcases List.mem_cons.mp hp with hh | hh
        · subst hh
          exact hm (k', v') (by simp)
        · exact ih (fun q hq => hm q (by simp [hq])) p hh

theorem buildActMap_keyInv :
    ∀ (acts : List Activity) (m : List (String × Activity)),
    (∀ p ∈ m, actKey p.2 = p.1) →
    ∀ p ∈ buildActMap acts m, actKey p.2 = p.1 := by
  intro acts
  induction acts with
  | nil => intro m hm p hp; exact hm p hp
  | cons a rest ih =>
      intro m hm p hp
      exact ih (mapSetStr m (actKey a) a) (mapSetStr_keyInv a m hm) p hp

theorem mapSetStr_fst_mem (k : String) (v : Activity) (x : String) :
    ∀ (m : List (String × Activity)),
    x ∈ (mapSetStr m k v).map Prod.fst → x = k ∨ x ∈ m.map Prod.fst := by
  intro m
  induction m with
  | nil =>
      intro hx
      rw [mapSetStr_nil] at hx
      exact Or.inl (List.mem_singleton.mp hx)
  | cons q rest ih =>
      obtain ⟨k', v'⟩ := q
      intro hx
      rw [mapSetStr_cons] at hx
      by_cases hk : (k' == k) = true
      · rw [if_pos hk, List.map_cons] at hx
        exact Or.inr hx
      · rw [if_neg hk, List.map_cons] at hx
        rcases List.mem_cons.mp hx with hh | hh
        · exact Or.inr (by rw [List.map_cons, hh]; exact List.mem_cons_self _ _)
        · rcases ih hh with hh' | hh'
          · exact Or.inl hh'
          · exact Or.inr (by rw [List.map_cons]; exact List.mem_cons_of_mem _ hh')

theorem mapSetStr_fst_nodup (k : String) (v : Activity) :
    ∀ (m : List (String × Activity)), ((m.map Prod.fst).Nodup) →
    (((mapSetStr m k v).map Prod.fst).Nodup) := by
  intro m
  induction m with
  | nil => intro _; rw [mapSetStr_nil]; simp
  | cons q rest ih =>
      obtain ⟨k', v'⟩ := q
      intro hm
      rw [List.map_cons, List.nodup_cons] at hm
      rw [mapSetStr_cons]
      by_cases hk : (k' == k) = true
      · rw [if_pos hk, List.map_cons, List.nodup_cons]
        exact hm
      · rw [if_neg hk, List.map_cons, List.nodup_cons]
        refine ⟨fun hmem => ?_, ih hm.2⟩
        rcases mapSetStr_fst_mem k v k' rest hmem with hh | hh
        · subst hh
          exact absurd (beq_self_eq_true k') hk
        · exact hm.1 hh

theorem buildActMap_fst_nodup :
    ∀ (acts : List Activity) (m : List (String × Activity)),
    ((m.map Prod.fst).Nodup) → (((buildActMap acts m).map Prod.fst).Nodup) := by
  intro acts
  induction acts with
  | nil => intro m hm; exact hm
  | cons a rest ih =>
      intro m hm
      exact ih _ (mapSetStr_fst_nodup (actKey a) a m hm)

theorem lookup_of_mem_nodup :
    ∀ (m : List (String × Activity)) (p : String × Activity),
    ((m.map Prod.fst).Nodup) → p ∈ m → m.lookup p.1 = some p.2 := by
  intro m
  induction m with
  | nil => intro p _ hp; exact absurd hp (List.not_mem_nil p)
  | cons q rest ih =>
      obtain ⟨k₀, v₀⟩ := q
      intro p hnd hp
      simp only [List.map_cons, List.nodup_cons] at hnd
      rcases List.mem_cons.mp hp with hh | hh
      · subst hh
        rw [List.lookup_cons, beq_self_eq_true]
      · have hne : (p.1 == k₀) = false := by
          rcases hkk : p.1 == k₀ with _ | _
          · rfl
          · exfalso
            have hpk : p.1 = k₀ := by simpa using hkk
            apply hnd.1
            rw [← hpk]
            exact List.mem_map_of_mem Prod.fst hh
        rw [List.lookup_cons, hne]
        exact ih p hnd.2 hh

theorem lookup_some_mem :
    ∀ (m : List (String × Activity)) (k : String) (v : Activity),
    m.lookup k = some v → (k, v) ∈ m := by
  intro m
  induction m with
  | nil => intro k v h; exact absurd h (by simp)
  | cons q rest ih =>
      obtain ⟨k₀, v₀⟩ := q
      intro k v h
      rw [List.lookup_cons] at h
      rcases hkk : k == k₀ with _ | _
      · rw [hkk] at h
        exact List.mem_cons_of_mem _ (ih k v h)
      · rw [hkk] at h
        have hk : k = k₀ := by simpa using hkk
        have hv : v₀ = v := by
          simpa using h
        subst hk
        subst hv
        exact List.mem_cons_self _ _

theorem lastWithKey_of_mem (a : Activity) :
    ∀ (acts : List Activity), a ∈ acts →
    ∃ b, lastWithKey (actKey a) acts = some b := by
  intro acts
  induction acts with
  | nil => intro h; exact absurd h (List.not_mem_nil a)
  | cons x rest ih =>
      intro h
      show ∃ b, (match lastWithKey (actKey a) rest with
        | some b => some b
        | none => if actKey x == actKey a then some x else none) = some b
      rcases hl : lastWithKey (actKey a) rest with _ | b
      · rcases List.mem_cons.mp h with hh | hh
        · subst hh
          rw [beq_self_eq_true]
          exact ⟨a, rfl⟩
        · obtain ⟨b, hb⟩ := ih hh
          rw [hb] at hl
          exact Option.noConfusion hl
      · exact ⟨b, rfl⟩

theorem mapSetStr_snd_mem (k : String) (v : Activity) :
    ∀ (m : List (String × Activity)) (p : String × Activity),
    p ∈ mapSetStr m k v → p.2 = v ∨ p ∈ m := by
  intro m
  induction m with
  | nil =>
      intro p hp
      rw [mapSetStr_nil] at hp
      rw [List.mem_singleton.mp hp]
      exact Or.inl rfl
  | cons q rest ih =>
      obtain ⟨k', v'⟩ := q
      intro p hp
      rw [mapSetStr_cons] at hp
      by_cases hk : (k' == k) = true
      · rw [if_pos hk] at hp
        rcases List.mem_cons.mp hp with hh | hh
        · subst hh; exact Or.inl rfl
        · exact Or.inr (by simp [hh])
      · rw [if_neg hk] at hp
        rcases List.mem_cons.mp hp with hh | hh
        · subst hh; exact Or.inr (by simp)
        · rcases ih p hh with hh' | hh'
          · exact Or.inl hh'
          · exact Or.inr (by simp [hh'])

theorem buildActMap_snd_mem :
    ∀ (acts : List Activity) (m : List (String × Activity))
      (p : String × Activity),
    p ∈ buildActMap acts m → p.2 ∈ acts ∨ p ∈ m := by
  intro acts
  induction acts with
  | nil => intro m p hp; exact Or.inr hp
  | cons a rest ih =>
      intro m p hp
      rcases ih (mapSetStr m (actKey a) a) p hp with hh | hh
      · exact Or.inl (by simp [hh])
      · rcases mapSetStr_snd_mem (actKey a) a m p hh with hh' | hh'
        · exact Or.inl (by simp [hh'])
        · exact Or.inr hh'

theorem exBind_eq_ok {α β : Type} (x : Except String α)
    (f : α → Except String β) (b : β) (h : (x >>= f) = .ok b) :
    ∃ a, x = .ok a ∧ f a = .ok b := by
  cases x with
  | error e => rw [exBind_error] at h; exact Except.noConfusion h
  | ok a => rw [exBind_ok] at h; exact ⟨a, rfl, h⟩

theorem getProp_ok_eq (v : JsVal) (k : String) (w : JsVal)
    (h : getProp v k = .ok w) : w = propOf v k := by
  cases v with
  | null => exact Except.noConfusion h
  | undef => exact Except.noConfusion h
  | bool b => injection h with h; exact h.symm
  | num n => injection h with h; exact h.symm
  | str s => injection h with h; exact h.symm
  | arr l => injection h with h; exact h.symm
  | obj fields => injection h with h; exact h.symm

theorem mapE_mem {β : Type} (f : JsVal → Except String β) :
    ∀ (l : List JsVal) (out : List β), mapE f l = .ok out →
    ∀ y ∈ out, ∃ x ∈ l, f x = .ok y := by
  intro l
  induction l with
  | nil =>
      intro out h y hy
      have hout : out = [] := by
        have h' : (Except.ok [] : Except String (List β)) = .ok out := h
        injection h' with h'
        exact h'.symm
      subst hout
      exact absurd hy (List.not_mem_nil y)
  | cons x xs ih =>
      intro out h y hy
      obtain ⟨z, hz, h'⟩ := exBind_eq_ok _ _ _ h
      obtain ⟨rest, hrest, h''⟩ := exBind_eq_ok _ _ _ h'
      have hout : out = z :: rest := by
        injection h'' with h''
        exact h''.symm
      subst hout
      rcases List.mem_cons.mp hy with hh | hh
      · exact ⟨x, List.mem_cons_self _ _, by rw [hh]; exact hz⟩
      · obtain ⟨x', hx', hfx⟩ := ih rest hrest y hh
        exact ⟨x', List.mem_cons_of_mem _ hx', hfx⟩

theorem mapEntryF_fields (courseMap : List (JsVal × JsVal)) (entry : JsVal)
    (act : Activity) (h : mapEntryF courseMap entry = .ok act) :
    act.activityName =
      (if truthy (propOf (propOf entry "itemSpecificData") "title")
        then propOf (propOf entry "itemSpecificData") "title"
        else .str "Untitled Activity") ∧
    act.courseName =
      (if truthy (mapGet courseMap (propOf entry "se_courseId"))
        then mapGet courseMap (propOf entry "se_courseId")
        else .str "Unknown Course") ∧
    act.dueDate =
      (if truthy (propOf (propOf (propOf entry "itemSpecificData")
          "notificationDetails") "dueDate")
        then propOf (propOf (propOf entry "itemSpecificData")
          "notificationDetails") "dueDate"
        else .null) ∧
    act.givenDate =
      (if truthy (propOf (propOf (propOf entry "itemSpecificData")
          "notificationDetails") "startDate")
        then propOf (propOf (propOf entry "itemSpecificData")
          "notificationDetails") "startDate"
        else .null) := by
  unfold mapEntryF at h
  obtain ⟨details, h1, h⟩ := exBind_eq_ok _ _ _ h
  obtain ⟨nd, h2, h⟩ := exBind_eq_ok _ _ _ h
  obtain ⟨title, h3, h⟩ := exBind_eq_ok _ _ _ h
  obtain ⟨cid, h4, h⟩ := exBind_eq_ok _ _ _ h
  obtain ⟨st, h5, h⟩ := exBind_eq_ok _ _ _ h
  obtain ⟨dd, h6, h⟩ := exBind_eq_ok _ _ _ h
  obtain ⟨sd, h7, h⟩ := exBind_eq_ok _ _ _ h
  have hd := getProp_ok_eq _ _ _ h1
  subst hd
  have hn := getProp_ok_eq _ _ _ h2
  subst hn
  have ht := getProp_ok_eq _ _ _ h3
  subst ht
  have hc := getProp_ok_eq _ _ _ h4
  subst hc
  have hs := getProp_ok_eq _ _ _ h5
  subst hs
  have hdd := getProp_ok_eq _ _ _ h6
  subst hdd
  have hsd := getProp_ok_eq _ _ _ h7
  subst hsd
  injection h with h
  subst h
  exact ⟨rfl, rfl, rfl, rfl⟩

theorem mapEntryF_truthy (courseMap : List (JsVal × JsVal)) (entry : JsVal)
    (act : Activity) (h : mapEntryF courseMap entry = .ok act) :
    truthy act.activityName = true ∧ truthy act.courseName = true := by
  obtain ⟨h1, h2, _, _⟩ := mapEntryF_fields courseMap entry act h
  constructor
  · rw [h1]
    rcases ht : truthy (propOf (propOf entry "itemSpecificData") "title")
      with _ | _
    · rw [if_neg Bool.false_ne_true]
      rfl
    · rw [if_pos rfl]
      exact ht
  · rw [h2]
    rcases hc : truthy (mapGet courseMap (propOf entry "se_courseId"))
      with _ | _
    · rw [if_neg Bool.false_ne_true]
      rfl
    · rw [if_pos rfl]
      exact hc

theorem getActivitiesAsJson_mem (v : JsVal) (out : ActivitiesJson)
    (h : getActivitiesAsJson v = .ok out) (a : Activity)
    (ha : a ∈ out.activities) :
    ∃ (courseMap : List (JsVal × JsVal)) (entry : JsVal),
      mapEntryF courseMap entry = .ok a := by
  unfold getActivitiesAsJson at h
  by_cases h1 : truthy v = false
  · rw [if_pos h1] at h
    injection h with h
    rw [← h] at ha
    exact absurd ha (List.not_mem_nil a)
  · rw [if_neg h1] at h
    by_cases h2 : truthy (propOf v "sv_streamEntries") = false
    · rw [if_pos h2] at h
      injection h with h
      rw [← h] at ha
      exact absurd ha (List.not_mem_nil a)
    · rw [if_neg h2] at h
      by_cases h3 : truthy (propOf v "sv_extras") = false
      · rw [if_pos h3] at h
        injection h with h
        rw [← h] at ha
        exact absurd ha (List.not_mem_nil a)
      · rw [if_neg h3] at h
        obtain ⟨courseMap, hcm, h⟩ := exBind_eq_ok _ _ _ h
        cases hse : propOf v "sv_streamEntries" with
        | arr entries =>
            rw [hse] at h
            obtain ⟨l1, hl1, h⟩ := exBind_eq_ok _ _ _ h
            obtain ⟨l2, hl2, h⟩ := exBind_eq_ok _ _ _ h
            obtain ⟨allActs, hma, h⟩ := exBind_eq_ok _ _ _ h
            have hout : (⟨dedup allActs⟩ : ActivitiesJson) = out := by
              injection h with h
            rw [← hout] at ha
            have ha' : a ∈ dedup allActs := ha
            unfold dedup at ha'
            obtain ⟨p, hp, hps⟩ := List.mem_map.mp ha'
            rcases buildActMap_snd_mem allActs [] p hp with hh | hh
            · subst hps
              obtain ⟨e, he, hfe⟩ :=
                mapE_mem (mapEntryF courseMap) l2 allActs hma p.2 hh
              exact ⟨courseMap, e, hfe⟩
            · exact absurd hh (List.not_mem_nil p)
        | null => rw [hse] at h; exact Except.noConfusion h
        | undef => rw [hse] at h; exact Except.noConfusion h
        | bool b => rw [hse] at h; exact Except.noConfusion h
        | num n => rw [hse] at h; exact Except.noConfusion h
        | str s => rw [hse] at h; exact Except.noConfusion h
        | obj fields => rw [hse] at h; exact Except.noConfusion h

/-- A concrete activity-stream payload with two `bb-nautilus` assignment
entries carrying the same title and course but different lifecycle tags
(`AVAIL` vs `DUE`) and different due dates. -/
def streamExample : JsVal :=
  .obj [
    ("sv_streamEntries", .arr [
      .obj [("providerId", .str "bb-nautilus"),
            ("se_courseId", .str "_55_1"),
            ("lifecycle", .str "AVAIL"),
            ("itemSpecificData", .obj [
              ("title", .str "HW1"),
              ("notificationDetails", .obj [
                ("sourceType", .str "UA"),
                ("dueDate", .str "2025-01-01"),
                ("startDate", .str "2024-12-01")])])],
      .obj [("providerId", .str "bb-nautilus"),
            ("se_courseId", .str "_55_1"),
            ("lifecycle", .str "DUE"),
            ("itemSpecificData", .obj [
              ("title", .str "HW1"),
              ("notificationDetails", .obj [
                ("sourceType", .str "UA"),
                ("dueDate", .str "2025-01-02"),
                ("startDate", .str "2024-12-01")])])]]),
    ("sv_extras", .obj [
      ("sx_courses", .arr [
        .obj [("id", .str "_55_1"), ("name", .str "Math 101")]])])]

/-- A stream whose two kept entries carry *distinct*
(activityName, courseName) pairs — `("a-b", "c")` and `("a", "b-c")` —
that concatenate to the same de-duplication key `"a-b-c"`. -/
def streamCollide : JsVal :=
  .obj [
    ("sv_streamEntries", .arr [
      .obj [("providerId", .str "bb-nautilus"),
            ("se_courseId", .str "_1_1"),
            ("itemSpecificData", .obj [
              ("title", .str "a-b"),
              ("notificationDetails", .obj [("sourceType", .str "UA")])])],
      .obj [("providerId", .str "bb-nautilus"),
            ("se_courseId", .str "_2_1"),
            ("itemSpecificData", .obj [
              ("title", .str "a"),
              ("notificationDetails", .obj [("sourceType", .str "UA")])])]]),
    ("sv_extras", .obj [
      ("sx_courses", .arr [
        .obj [("id", .str "_1_1"), ("name", .str "c")],
        .obj [("id", .str "_2_1"), ("name", .str "b-c")]])])]

/-- **C9 (counterexample).** The code does not de-duplicate by the
(activityName, courseName) *pair*: the key is the bare concatenation
`` `${activityName}-${courseName}` ``, so the distinct pairs
`("a-b", "c")` and `("a", "b-c")` share the key `"a-b-c"` and the first
pair's only entry is dropped — `dedup [A1, A2] = [A2]` even though no other
entry shares `A1`'s pair, and the same loss is realizable end to end
through `getActivitiesAsJson` on `streamCollide`. -/
theorem C9_counterexample_distinct_pairs_collide :
    ((JsVal.str "a-b", JsVal.str "c") ≠ (JsVal.str "a", JsVal.str "b-c")) ∧
    actKey (Activity.mk (.str "a-b") (.str "c") (.str "Assignment")
        .null .null) =
      actKey (Activity.mk (.str "a") (.str "b-c") (.str "Assignment")
        .null .null) ∧
    dedup [Activity.mk (.str "a-b") (.str "c") (.str "Assignment")
          .null .null,
        Activity.mk (.str "a") (.str "b-c") (.str "Assignment")
          .null .null] =
      [Activity.mk (.str "a") (.str "b-c") (.str "Assignment")
        .null .null] ∧
    getActivitiesAsJson streamCollide =
      .ok ⟨[Activity.mk (.str "a") (.str "b-c") (.str "Assignment")
        .null .null]⟩ := by
  refine ⟨fun h => ?_, rfl, rfl, rfl⟩
  have h1 : JsVal.str "a-b" = JsVal.str "a" := congrArg Prod.fst h
  injection h1 with h1
  exact absurd h1 (by decide)

/-- **C9 (amended).** The transformer de-duplicates by the concatenated
string key `` `${activityName}-${courseName}` ``, not by the
(activityName, courseName) pair: entries sharing one key collapse to
exactly one output entry — the output's keys are pairwise distinct, every
kept entry's key is represented — and the survivor is the last-seen one in
stream order (the first match in the reversed list).  Entries sharing the
same pair always share the key, so the claim's concrete scenario holds: the
two stream entries of `streamExample`, identical up to their lifecycle tags
and due dates, produce exactly one output activity, the second one.  But
distinct pairs whose concatenations coincide also collapse, losing all but
the last (the counterexample). -/
theorem C9_duplicates_collapse_last_seen_wins (acts : List Activity) :
    ((dedup acts).map actKey).Nodup ∧
    (∀ a ∈ dedup acts,
      acts.reverse.find? (fun b => actKey b == actKey a) = some a) ∧
    (∀ a ∈ acts, ∃ b ∈ dedup acts, actKey b = actKey a) ∧
    getActivitiesAsJson streamExample =
      .ok ⟨[⟨.str "HW1", .str "Math 101", .str "Assignment",
        .str "2025-01-02", .str "2024-12-01"⟩]⟩ := by
  have hmnil : ∀ p ∈ ([] : List (String × Activity)), actKey p.2 = p.1 :=
    fun q hq => absurd hq (List.not_mem_nil q)
  have hinv := buildActMap_keyInv acts [] hmnil
  have hnod := buildActMap_fst_nodup acts [] (by simp)
  refine ⟨?_, ?_, ?_, rfl⟩
  · unfold dedup
    rw [List.map_map]
    rw [show List.map (actKey ∘ Prod.snd) (buildActMap acts []) =
        List.map Prod.fst (buildActMap acts []) from
      List.map_congr_left (fun p hp => hinv p hp)]
    exact hnod
  · intro a ha
    unfold dedup at ha
    obtain ⟨p, hp, hps⟩ := List.mem_map.mp ha
    have hkey : actKey p.2 = p.1 := hinv p hp
    have hlk := lookup_of_mem_nodup (buildActMap acts []) p hnod hp
    rw [buildActMap_lookup p.1 acts []] at hlk
    rcases hl : lastWithKey p.1 acts with _ | b
    · rw [hl] at hlk
      exact absurd hlk (by simp)
    · rw [hl] at hlk
      have hb : b = p.2 := by simpa using hlk
      subst hb
      subst hps
      rw [hkey, ← lastWithKey_eq_find_reverse p.1 acts, hl]
  · intro a ha
    obtain ⟨b, hb⟩ := lastWithKey_of_mem a acts ha
    have hlk : (buildActMap acts []).lookup (actKey a) = some b := by
      rw [buildActMap_lookup (actKey a) acts [], hb]
    have hmem := lookup_some_mem (buildActMap acts []) (actKey a) b hlk
    exact ⟨b, List.mem_map_of_mem Prod.snd hmem,
      buildActMap_keyInv acts [] hmnil (actKey a, b) hmem⟩

theorem C9_duplicates_collapse_last_seen_wins_witness :
    (Activity.mk (.str "HW1") (.str "Math 101") (.str "Assignment")
        (.str "2025-01-02") (.str "2024-12-01") ∈
      dedup [Activity.mk (.str "HW1") (.str "Math 101") (.str "Assignment")
          (.str "2025-01-01") (.str "2024-12-01"),
        Activity.mk (.str "HW1") (.str "Math 101") (.str "Assignment")
          (.str "2025-01-02") (.str "2024-12-01")]) ∧
    ([Activity.mk (.str "HW1") (.str "Math 101") (.str "Assignment")
          (.str "2025-01-01") (.str "2024-12-01"),
      Activity.mk (.str "HW1") (.str "Math 101") (.str "Assignment")
          (.str "2025-01-02") (.str "2024-12-01")].reverse.find?
        (fun b => actKey b == actKey (Activity.mk (.str "HW1") (.str "Math 101")
          (.str "Assignment") (.str "2025-01-02") (.str "2024-12-01"))) =
      some (Activity.mk (.str "HW1") (.str "Math 101") (.str "Assignment")
        (.str "2025-01-02") (.str "2024-12-01"))) ∧
    (∃ b ∈ dedup [Activity.mk (.str "HW1") (.str "Math 101") (.str "Assignment")
          (.str "2025-01-01") (.str "2024-12-01"),
        Activity.mk (.str "HW1") (.str "Math 101") (.str "Assignment")
          (.str "2025-01-02") (.str "2024-12-01")],
      actKey b = actKey (Activity.mk (.str "HW1") (.str "Math 101")
        (.str "Assignment") (.str "2025-01-01") (.str "2024-12-01"))) := by
  have h := C9_duplicates_collapse_last_seen_wins
    [Activity.mk (.str "HW1") (.str "Math 101") (.str "Assignment")
        (.str "2025-01-01") (.str "2024-12-01"),
      Activity.mk (.str "HW1") (.str "Math 101") (.str "Assignment")
        (.str "2025-01-02") (.str "2024-12-01")]
  have hmem : Activity.mk (.str "HW1") (.str "Math 101") (.str "Assignment")
      (.str "2025-01-02") (.str "2024-12-01") ∈
      dedup [Activity.mk (.str "HW1") (.str "Math 101") (.str "Assignment")
          (.str "2025-01-01") (.str "2024-12-01"),
        Activity.mk (.str "HW1") (.str "Math 101") (.str "Assignment")
          (.str "2025-01-02") (.str "2024-12-01")] := by
    rw [show dedup [Activity.mk (.str "HW1") (.str "Math 101") (.str "Assignment")
          (.str "2025-01-01") (.str "2024-12-01"),
        Activity.mk (.str "HW1") (.str "Math 101") (.str "Assignment")
          (.str "2025-01-02") (.str "2024-12-01")] =
      [Activity.mk (.str "HW1") (.str "Math 101") (.str "Assignment")
          (.str "2025-01-02") (.str "2024-12-01")] from rfl]
    exact List.mem_singleton.mpr rfl
  exact ⟨hmem, h.2.1 _ hmem, h.2.2.1 _ (List.mem_cons_self _ _)⟩

/-- A stream entry that keeps its defaults: no `title`, no `se_courseId`,
no `dueDate`, no `startDate` — only the fields the keep-filters need. -/
def entryW : JsVal :=
  .obj [("providerId", .str "bb-nautilus"),
        ("itemSpecificData", .obj [
          ("notificationDetails", .obj [("sourceType", .str "TE")])])]

/-- A stream payload whose single entry is `entryW` and whose extras carry
no course table. -/
def streamW : JsVal :=
  .obj [("sv_streamEntries", .arr [entryW]), ("sv_extras", .obj [])]

/-- The activity record the transformer builds from `entryW`: every
defaulted field. -/
def actW : Activity :=
  ⟨.str "Untitled Activity", .str "Unknown Course", .str "Test", .null, .null⟩

/-- **C10.** Per kept entry, the transformer's map callback substitutes
`'Untitled Activity'` when the entry's title is missing or falsy,
`'Unknown Course'` when the course-map lookup of the entry's `se_courseId`
is missing or falsy, and `null` for a missing or falsy `dueDate` or
`startDate`; consequently the `activityName` and `courseName` of every
record built by the callback — and hence of every activity in any
successful transformer output — are truthy (in particular non-empty). -/
theorem C10_activity_defaults :
    (∀ (courseMap : List (JsVal × JsVal)) (entry : JsVal) (act : Activity),
      mapEntryF courseMap entry = .ok act →
      (truthy (propOf (propOf entry "itemSpecificData") "title") = false →
        act.activityName = .str "Untitled Activity") ∧
      (truthy (mapGet courseMap (propOf entry "se_courseId")) = false →
        act.courseName = .str "Unknown Course") ∧
      (truthy (propOf (propOf (propOf entry "itemSpecificData")
          "notificationDetails") "dueDate") = false →
        act.dueDate = .null) ∧
      (truthy (propOf (propOf (propOf entry "itemSpecificData")
          "notificationDetails") "startDate") = false →
        act.givenDate = .null) ∧
      truthy act.activityName = true ∧ truthy act.courseName = true) ∧
    (∀ (v : JsVal) (out : ActivitiesJson), getActivitiesAsJson v = .ok out →
      ∀ a ∈ out.activities,
        truthy a.activityName = true ∧ truthy a.courseName = true) := by
  constructor
  · intro courseMap entry act h
    obtain ⟨h1, h2, h3, h4⟩ := mapEntryF_fields courseMap entry act h
    refine ⟨?_, ?_, ?_, ?_, mapEntryF_truthy courseMap entry act h⟩
    · intro ht
      rw [h1, if_neg (by rw [ht]; exact Bool.false_ne_true)]
    · intro hc
      rw [h2, if_neg (by rw [hc]; exact Bool.false_ne_true)]
    · intro hd
      rw [h3, if_neg (by rw [hd]; exact Bool.false_ne_true)]
    · intro hs
      rw [h4, if_neg (by rw [hs]; exact Bool.false_ne_true)]
  · intro v out h a ha
    obtain ⟨courseMap, entry, hfe⟩ := getActivitiesAsJson_mem v out h a ha
    exact mapEntryF_truthy courseMap entry a hfe

theorem C10_activity_defaults_witness :
    actW.activityName = .str "Untitled Activity" ∧
    actW.courseName = .str "Unknown Course" ∧
    actW.dueDate = .null ∧
    actW.givenDate = .null ∧
    truthy actW.activityName = true ∧
    truthy actW.courseName = true ∧
    getActivitiesAsJson streamW = .ok ⟨[actW]⟩ ∧
    (∀ a ∈ ([actW] : List Activity),
      truthy a.activityName = true ∧ truthy a.courseName = true) := by
  have h := C10_activity_defaults
  have h1 := h.1 [] entryW actW rfl
  have h2 := h.2 streamW ⟨[actW]⟩ rfl
  exact ⟨h1.1 rfl, h1.2.1 rfl, h1.2.2.1 rfl, h1.2.2.2.1 rfl,
    h1.2.2.2.2.1, h1.2.2.2.2.2, rfl, h2⟩

end MBE
